import Mathlib

/-!
Verification development for the goshu IRC bot's module registry and
event/command dispatch core (`gbot/modules.py`).

The Python data structures are shallowly embedded:

* Python `dict`s (which preserve insertion order and have unique keys) are
  modelled as association lists `List (κ × β)` operated on by `dlookup`,
  `dset`, `dassign` and `dremove`, all acting on the first occurrence of a
  key, mirroring `d[k]`, `d[k] = v`, `k in d` and `del d[k]`.
* Python lists are Lean lists; `list.remove(x)` is `removeFirst`,
  `list.append(x)` is `· ++ [x]`.
* Handlers (bound methods) are identified by `Handler := Nat`: in Python
  handler deduplication is by object identity, modelled as `Nat` equality.
* The listener index `Modules.listeners` is
  `priority -> direction -> event type -> list of (handler, inline)`,
  i.e. `LIndex` below.
-/

set_option maxHeartbeats 1000000
set_option synthInstance.maxSize 1000

abbrev Handler := Nat

/-- Tuple list at one `(priority, direction, eventType)` key: `(handler, inline)`. -/
abbrev TList := List (Handler × Bool)

/-- Event-type level of the listener index. -/
abbrev EMap := List (String × TList)

/-- Direction level of the listener index. -/
abbrev DMap := List (String × EMap)

/-- The merged listener index `Modules.listeners`. -/
abbrev LIndex := List (Int × DMap)

/-- Python `d.get(k)` / `d[k]`: value at the first occurrence of key `k`. -/
def dlookup {κ β : Type} [DecidableEq κ] : List (κ × β) → κ → Option β
  | [], _ => none
  | (k, v) :: r, k' => if k = k' then some v else dlookup r k'

/-- Replace the value at the first occurrence of key `k` (no-op if absent). -/
def dset {κ β : Type} [DecidableEq κ] : List (κ × β) → κ → β → List (κ × β)
  | [], _, _ => []
  | (k, v) :: r, k', v' => if k = k' then (k, v') :: r else (k, v) :: dset r k' v'

/-- Python `d[k] = v`: overwrite if the key exists, otherwise append. -/
def dassign {κ β : Type} [DecidableEq κ] (l : List (κ × β)) (k : κ) (v : β) : List (κ × β) :=
  if (dlookup l k).isSome then dset l k v else l ++ [(k, v)]

/-- Python `del d[k]`: remove the first occurrence of key `k`. -/
def dremove {κ β : Type} [DecidableEq κ] : List (κ × β) → κ → List (κ × β)
  | [], _ => []
  | (k, v) :: r, k' => if k = k' then r else (k, v) :: dremove r k'

/-- Python `list.remove(a)`: drop the first occurrence of `a`. -/
def removeFirst {α : Type} [DecidableEq α] : List α → α → List α
  | [], _ => []
  | x :: r, a => if x = a then r else x :: removeFirst r a

/-- The keys of an association list, in order. -/
def keysOf {κ β : Type} (l : List (κ × β)) : List κ := l.map Prod.fst

/-- Drop the keys whose value is the empty list. -/
def dropEmptyVals {κ β : Type} (l : List (κ × List β)) : List (κ × List β) :=
  l.filter (fun kv => !kv.2.isEmpty)

/--
`Modules.load`, listener merge (gbot/modules.py lines 533-540):

    if priority not in self.listeners: self.listeners[priority] = {}
    if direction not in self.listeners[priority]: ... = {}
    if event_name not in self.listeners[priority][direction]: ... = []
    self.listeners[priority][direction][event_name].append((handler, inline))
-/
def addListener (idx : LIndex) (p : Int) (d e : String) (t : Handler × Bool) : LIndex :=
  match dlookup idx p with
  | none => idx ++ [(p, [(d, [(e, [t])])])]
  | some dm =>
    match dlookup dm d with
    | none => dset idx p (dm ++ [(d, [(e, [t])])])
    | some em =>
      match dlookup em e with
      | none => dset idx p (dset dm d (em ++ [(e, [t])]))
      | some l => dset idx p (dset dm d (dset em e (l ++ [t])))

/-- Write back the value at a key, deleting the key instead when the new
value is empty — the `if not ...: del ...` pruning idiom of `unload`. -/
def dcollapse {κ β : Type} [DecidableEq κ] (empty : β → Bool) (m : List (κ × β)) (k : κ)
    (v : β) : List (κ × β) :=
  if empty v then dremove m k else dset m k v

/--
`Modules.unload`, listener removal (gbot/modules.py lines 571-579):

    self.listeners[priority][direction][event_name].remove((handler, inline))
    if not self.listeners[priority][direction][event_name]: del ...
    if not self.listeners[priority][direction]: del ...
    if not self.listeners[priority]: del ...

The missing-key branches return the index unchanged; in Python they would
raise `KeyError`, and they are unreachable in every theorem below because
removal is only performed on listeners that `load` registered.
-/
def remListener (idx : LIndex) (p : Int) (d e : String) (t : Handler × Bool) : LIndex :=
  match dlookup idx p with
  | none => idx
  | some dm =>
    match dlookup dm d with
    | none => idx
    | some em =>
      match dlookup em e with
      | none => idx
      | some l =>
        dcollapse List.isEmpty idx p
          (dcollapse List.isEmpty dm d
            (dcollapse List.isEmpty em e (removeFirst l t)))

/-- Leaf lookup in the listener index. -/
def look3 (idx : LIndex) (p : Int) (d e : String) : Option TList :=
  (dlookup idx p).bind (fun dm => (dlookup dm d).bind (fun em => dlookup em e))

/-- Direction-level key presence in the listener index. -/
def lvl2 (idx : LIndex) (p : Int) (d : String) : Bool :=
  ((dlookup idx p).map (fun dm => (dlookup dm d).isSome)).getD false

/--
Well-formedness of the listener index, as maintained by the Python code:
each level is a dict (keys unique) and no container is left empty
(`unload` prunes empty branches, `load` only creates non-empty ones).
-/
def WFIndex (idx : LIndex) : Prop :=
  (keysOf idx).Nodup ∧
  ∀ pd ∈ idx, pd.2 ≠ [] ∧ (keysOf pd.2).Nodup ∧
    ∀ de ∈ pd.2, de.2 ≠ [] ∧ (keysOf de.2).Nodup ∧
      ∀ et ∈ de.2, et.2 ≠ []

/-- Executable mirror of `WFIndex`. -/
def wfIndexB (idx : LIndex) : Bool :=
  decide (keysOf idx).Nodup &&
  idx.all (fun pd => !pd.2.isEmpty && decide (keysOf pd.2).Nodup &&
    pd.2.all (fun de => !de.2.isEmpty && decide (keysOf de.2).Nodup &&
      de.2.all (fun et => !et.2.isEmpty)))

instance : DecidablePred WFIndex := fun idx =>
  decidable_of_iff (wfIndexB idx = true) (by
    simp [wfIndexB, WFIndex, List.all_eq_true, and_assoc, List.isEmpty_iff])

/-- `Module.events` restricted to listener directions:
direction -> event type -> list of `(priority, handler, inline)`. -/
abbrev DirEvents := List (String × List (String × List (Int × Handler × Bool)))

/-- One listener registration: `(priority, direction, eventType, (handler, inline))`. -/
abbrev LEntry := Int × String × String × (Handler × Bool)

/-- The registrations a module contributes for one direction, in the order
`Modules.load`/`Modules.unload` walk `module.events[direction].items()`. -/
def entriesFor (events : DirEvents) (d : String) : List LEntry :=
  match dlookup events d with
  | none => []
  | some em => em.flatMap (fun et => et.2.map (fun tr => (tr.1, d, et.1, (tr.2.1, tr.2.2))))

/-- `load` walks directions `['in', 'out', 'both']` (gbot/modules.py line 524). -/
def dirsLoad : List String := ["in", "out", "both"]

/-- `unload` walks directions `['both', 'in', 'out']` (gbot/modules.py line 562). -/
def dirsUnload : List String := ["both", "in", "out"]

/-- All registrations of a module, flattened in the order a given
direction list is walked. -/
def flatSeq (events : DirEvents) (ds : List String) : List LEntry :=
  ds.flatMap (entriesFor events)

/-- Register a sequence of listeners (the listener part of `Modules.load`). -/
def addAll (es : List LEntry) (idx : LIndex) : LIndex :=
  es.foldl (fun idx x => addListener idx x.1 x.2.1 x.2.2.1 x.2.2.2) idx

/-- Remove a sequence of listeners (the listener part of `Modules.unload`). -/
def remAll (es : List LEntry) (idx : LIndex) : LIndex :=
  es.foldl (fun idx x => remListener idx x.1 x.2.1 x.2.2.1 x.2.2.2) idx

/-- The tuples a registration sequence contributes at one index path. -/
def tupsAt (es : List LEntry) (p : Int) (d e : String) : TList :=
  es.filterMap (fun x => if x.1 = p ∧ x.2.1 = d ∧ x.2.2.1 = e then some x.2.2.2 else none)

/-- Append a batch of tuples to an optional leaf list (`none` = key absent). -/
def appT (o : Option TList) (ts : TList) : Option TList :=
  match o, ts with
  | none, [] => none
  | o, ts => some (o.getD [] ++ ts)

/-- Remove a batch of tuples from an optional leaf list, pruning on empty. -/
def remSeqT (o : Option TList) (ts : TList) : Option TList :=
  ts.foldl (fun o t =>
    match o with
    | none => none
    | some l =>
      let l' := removeFirst l t
      if l' = [] then none else some l') o

/--
Extensional equality of two listener indexes: the same keys are present at
every level and the same tuple list sits at every leaf.  This is Python
`dict` equality (which ignores insertion order) applied recursively.
-/
def sameIdx (x y : LIndex) : Prop :=
  (∀ p, (dlookup x p).isSome = (dlookup y p).isSome) ∧
  (∀ p d, lvl2 x p d = lvl2 y p d) ∧
  (∀ p d e, look3 x p d e = look3 y p d e)

/-!
## Registry data model

`gbot/commands.py` and `gbot/users.py` are not part of the sources at hand;
the value types they provide are modelled from the spec where needed
(marked below).  All registry *logic* is embedded from `gbot/modules.py`.
-/

/-- Privilege levels: `user_levels` maps name tokens to ordinals, and a
command's `call_level` may be either an unresolved token or an ordinal
(`Modules.return_command_dict` keeps unknown tokens verbatim). -/
abbrev Lev := Sum String Int

/-- Modelled from the spec: `USER_LEVEL_NOPRIVS` from the missing
`gbot/users.py`, the minimum of the totally ordered privilege ordinals. -/
def USER_LEVEL_NOPRIVS : Int := 0

/-- Modelled from the spec: `USER_LEVEL_ADMIN` from the missing
`gbot/users.py`, the maximum privilege ordinal. -/
def USER_LEVEL_ADMIN : Int := 10

/-- Modelled from the spec: the `user_levels` token table of the missing
`gbot/users.py` (token names illustrative; only lookup hit/miss matters). -/
def user_levels : List (String × Int) := [("nopriv", 0), ("admin", 10)]

/-- An admin command descriptor.  Modelled from the spec: the
`AdminCommand` class lives in the missing `gbot/commands.py`; only the
fields the registry logic in `gbot/modules.py` reads are kept, with
`call` a handler identity. -/
structure AdminCmd where
  call : Handler
  call_level : Int
  bound : Bool
  module_name : String
deriving DecidableEq

/-- The global admin command table `Modules.global_admin_commands`:
command name -> list of admin commands. -/
abbrev GAC := List (String × List AdminCmd)

/--
`Module.__init__` registering one module's global admin commands
(gbot/modules.py lines 252-258): each command is tagged with the owning
module's name, then appended under its command name (creating the key).
-/
def registerGlobals (g : GAC) (cmds : List (String × AdminCmd)) (mname : String) : GAC :=
  cmds.foldl (fun g kv =>
    let c := { kv.2 with module_name := mname }
    match dlookup g kv.1 with
    | none => g ++ [(kv.1, [c])]
    | some l => dset g kv.1 (l ++ [c])) g

/--
`Modules.unload` global-command removal (gbot/modules.py lines 556-559):
every handler owned by the module is removed from every command-name key;
keys are never deleted, so emptied lists stay behind.
-/
def removeGlobals (g : GAC) (mname : String) : GAC :=
  g.map (fun kv => (kv.1, kv.2.filter (fun c => c.module_name != mname)))

/-- A command descriptor.  Modelled from the spec: the `Command` class with
its fields (call/levels/whitelists/mode restriction/alias link) lives in
the missing `gbot/commands.py`; `call` is a handler identity.  The router
logic that reads and mutates these fields is embedded from
`Modules.handle_command`. -/
structure Command where
  call : Handler
  description : List String
  call_level : Lev
  view_level : Lev
  channel_whitelist : List String
  user_whitelist : List String
  channel_mode_restriction : Option String
  bound : Bool
  base_name : String
  aliasOf : Option String
deriving DecidableEq

/-- A goshu `Module` as the registry sees it after `Module.__init__` has
collected its declared descriptors. -/
structure ModuleData where
  name : String
  globalAdminCmds : List (String × AdminCmd)
  standardAdminNames : List String
  events : DirEvents
  commands : List (String × Command)
deriving DecidableEq

/-- The state the `Modules` registry owns. -/
structure RegState where
  whole_modules : List (String × List String)
  modules : List (String × ModuleData)
  listeners : LIndex
  global_admin_commands : GAC
deriving DecidableEq

/-- Outcome of `Modules.load`: found no `Module` subclass, duplicate module
name, `Exception` for an unknown standard admin command, or success. -/
inductive LoadResult where
  | notFound
  | dupName
  | exnUnknownStd (modName cmdName : String)
  | ok
deriving DecidableEq

/--
The registry side effect of instantiating a discovered module class
(`Module.__init__`, gbot/modules.py lines 246-260): global admin commands
are appended to `Modules.global_admin_commands` **during construction**,
before `Modules.load` has done any duplicate checking.
-/
def instantiate (s : RegState) (m : ModuleData) : RegState :=
  { s with global_admin_commands :=
      registerGlobals s.global_admin_commands m.globalAdminCmds m.name }

/--
`Modules.load` (gbot/modules.py lines 471-547).  `discovered` is the result
of `inspect.getmembers(whole_module, isModule)` (the code `break`s after
the first member, so at most one module is instantiated per identifier).
`stdCmds` is the name set of `standard_admin_commands` from the missing
`gbot/commands.py`.  Module-local mutation (admin command table, static
commands, `folder_path`) stays inside the `ModuleData` and is not tracked.
-/
def load (stdCmds : List String) (ident : String) (discovered : Option ModuleData)
    (s : RegState) : LoadResult × RegState :=
  match discovered with
  | none => (.notFound, s)
  | some m =>
    let s := instantiate s m
    if (dlookup s.modules m.name).isSome then (.dupName, s)
    else
      let s := { s with
        whole_modules := dassign s.whole_modules ident [m.name],
        modules := dassign s.modules m.name m }
      match m.standardAdminNames.find? (fun n => decide (n ∉ stdCmds)) with
      | some bad => (.exnUnknownStd m.name bad, s)
      | none =>
        (.ok, { s with listeners := addAll (flatSeq m.events dirsLoad) s.listeners })

/--
`Modules.unload` (gbot/modules.py lines 549-585): for each module the
identifier produced, filter its commands out of the global admin table,
remove its listeners (pruning empty branches), and drop it from the live
set; finally drop the identifier.  The missing-module branch is
unreachable whenever `whole_modules` is consistent with `modules`.
-/
def unload (ident : String) (s : RegState) : Bool × RegState :=
  match dlookup s.whole_modules ident with
  | none => (false, s)
  | some names =>
    let s := names.foldl (fun s modname =>
      match dlookup s.modules modname with
      | none => s
      | some m =>
        { s with
          global_admin_commands := removeGlobals s.global_admin_commands m.name,
          listeners := remAll (flatSeq m.events dirsUnload) s.listeners,
          modules := dremove s.modules modname }) s
    (true, { s with whole_modules := dremove s.whole_modules ident })

/-!
## Event bus (`Modules.handle`)
-/

/-- An event as the bus and router read it.  `girc` event dicts are
external; only the fields `gbot/modules.py` reads are modelled.
`ftHasPrivs nick mode` is `event['from_to'].has_privs(nick, lowest_mode=mode)`. -/
structure Event where
  verb : String
  direction : String
  server : Nat
  source : String
  sourceNick : String
  message : String
  targetName : String
  ftIsUser : Bool
  ftIsChannel : Bool
  ftHasPrivs : String → String → Bool
  sourceAccount : Option String
  sourceUserLevel : Option Int

/-- The bus's external collaborators: the account store
(`bot.accounts.account` / `bot.accounts.access_level`) and the semantics of
handler invocation (`sem h ev` is what handler `h` returns for `ev`;
`none` models a handler returning `None`). -/
structure BusEnv where
  account : Nat → String → Option String
  accessLevel : Option String → Int
  sem : Handler → Event → Option Event

/--
`Modules.handle`, lines 588-591: for inbound `privmsg`/`pubmsg` events the
convenience fields are attached **at entry**, derived from the incoming
event's server/source.
-/
def attachAccount (env : BusEnv) (e : Event) : Event :=
  if ((e.verb == "privmsg") || (e.verb == "pubmsg")) && (e.direction == "in") then
    let acct := env.account e.server e.source
    { e with sourceAccount := acct, sourceUserLevel := some (env.accessLevel acct) }
  else e

/-- Dispatch state: the current (possibly replaced) event, the handlers
already invoked (`called`, in invocation order), and the non-inline
handlers spawned as threads together with the event each was given. -/
structure DState where
  ev : Event
  called : List Handler
  spawned : List (Handler × Event)

/--
The innermost loop of `Modules.handle` (lines 598-609): walk one tuple
list, skip already-called handlers, run inline handlers synchronously
(replacing the event when they return non-`None`) and spawn the rest.
-/
def runTuples (sem : Handler → Event → Option Event) (ts : TList) (st : DState) : DState :=
  ts.foldl (fun st hi =>
    if hi.1 ∈ st.called then st
    else
      let st := { st with called := st.called ++ [hi.1] }
      if hi.2 then
        match sem hi.1 st.ev with
        | some e' => { st with ev := e' }
        | none => st
      else { st with spawned := st.spawned ++ [(hi.1, st.ev)] }) st

/-- The tuple list at one index path, Python `.get(..., {}).get(..., [])`. -/
def lookupTuples (idx : LIndex) (p : Int) (d e : String) : TList :=
  (look3 idx p d e).getD []

/--
One priority iteration of `Modules.handle` (lines 596-609).  The lists
`['both', event['direction']]` and `['all', event['verb']]` are evaluated
when their `for` starts, so they capture the *current* event's fields at
that moment.
-/
def runPriority (sem : Handler → Event → Option Event) (idx : LIndex) (p : Int)
    (st : DState) : DState :=
  (["both", st.ev.direction]).foldl (fun st d =>
    (["all", st.ev.verb]).foldl (fun st e =>
      runTuples sem (lookupTuples idx p d e) st) st) st

/-- Insert into a `le`-sorted list (helper for Python `sorted`). -/
def insertSorted {α : Type} (le : α → α → Bool) (x : α) : List α → List α
  | [] => [x]
  | y :: r => if le x y then x :: y :: r else y :: insertSorted le x r

/-- Insertion sort, modelling Python `sorted` over dict keys. -/
def sortByLe {α : Type} (le : α → α → Bool) : List α → List α
  | [] => []
  | x :: r => insertSorted le x (sortByLe le r)

/-- `sorted(self.listeners.keys())`: priorities in ascending order. -/
def sortKeys (l : List Int) : List Int := sortByLe (fun a b => decide (a ≤ b)) l

/-- Lexicographic comparison of character lists by code point, the order
Python string comparison uses. -/
def charsLe : List Char → List Char → Bool
  | [], _ => true
  | _ :: _, [] => false
  | a :: as, b :: bs =>
    if a.toNat = b.toNat then charsLe as bs else decide (a.toNat < b.toNat)

/-- Lexicographic string comparison by code point. -/
def strLe (a b : String) : Bool := charsLe a.data b.data

/-- `sorted(self.modules)`: module names in lexicographic order. -/
def sortStr (l : List String) : List String := sortByLe strLe l

/-- The listener-dispatch loop of `Modules.handle` (lines 594-609). -/
def dispatchAll (sem : Handler → Event → Option Event) (idx : LIndex) (e : Event) : DState :=
  (sortKeys (keysOf idx)).foldl (fun st p => runPriority sem idx p st)
    { ev := e, called := [], spawned := [] }

/-- What `Modules.handle` does with one event (command routing itself is
modelled separately by `handle_command`; here only the fact and order of
its invocation is recorded). -/
structure HandleOut where
  finalEvent : Event
  called : List Handler
  spawned : List (Handler × Event)
  routerInvoked : Bool
  adminInvoked : Bool

/--
`Modules.handle` (gbot/modules.py lines 587-615): attach the account
fields to the incoming event, run the listener dispatch loop, then decide
command routing from the (possibly inline-replaced) final event.
-/
def handle (env : BusEnv) (idx : LIndex) (e : Event) : HandleOut :=
  let e1 := attachAccount env e
  let st := dispatchAll env.sem idx e1
  { finalEvent := st.ev,
    called := st.called,
    spawned := st.spawned,
    routerInvoked := ((st.ev.verb == "privmsg") || (st.ev.verb == "pubmsg"))
      && (st.ev.direction == "in"),
    adminInvoked := (st.ev.verb == "privmsg") && (st.ev.direction == "in") }

/--
Modelled from the spec: the bus behaviour claimed in §4.3 — "After all
listener dispatch, if the (possibly transformed) event is an inbound
private or public chat message, the bus attaches
`sourceAccount`/`sourceUserLevel` ..., then invokes the Command Router".
Dispatch runs on the raw event; the account fields are attached to the
transformed event only afterwards.
-/
def handleClaimC5 (env : BusEnv) (idx : LIndex) (e : Event) : HandleOut :=
  let st := dispatchAll env.sem idx e
  let e2 := attachAccount env st.ev
  { finalEvent := e2,
    called := st.called,
    spawned := st.spawned,
    routerInvoked := ((e2.verb == "privmsg") || (e2.verb == "pubmsg"))
      && (e2.direction == "in"),
    adminInvoked := (e2.verb == "privmsg") && (e2.direction == "in") }

/-!
## Command router (`Modules.handle_command`)
-/

/-- The router's external collaborators: the escaped command prefix string
(`escape(self.bot.settings.store['command_prefix'])`), the account store,
server case-folding (`server.istring`) and channel member lists
(`server.get_channel_info(chan)['users']`). -/
structure CmdEnv where
  pfx : String
  account : Nat → String → Option String
  accessLevel : String → Int
  istring : Nat → String → String
  channelUsers : Nat → String → List String

/-- Python `str.strip()` whitespace test, on the characters that occur in
IRC messages. -/
def isSpaceChar (c : Char) : Bool :=
  c == ' ' || c == '\t' || c == '\n' || c == '\r'

/-- Python `str.strip()` over an explicit character list. -/
def trimChars (cs : List Char) : List Char :=
  ((cs.dropWhile isSpaceChar).reverse.dropWhile isSpaceChar).reverse

/-- Python `str.split(' ', 1)`: the part before the first space, and the
remainder after it when a space exists. -/
def splitFirstSpace : List Char → List Char × Option (List Char)
  | [] => ([], none)
  | c :: r =>
    if c = ' ' then ([], some r)
    else
      let p := splitFirstSpace r
      (c :: p.1, p.2)

/--
Prefix stripping and command-word parsing of `Modules.handle_command`
(lines 676-687): literal prefix match at string start, strip whitespace,
split on the first space, lowercase the command word.  (Written over the
underlying character lists.)
-/
def parseCmd (pfx msg : String) : Option (String × String) :=
  if pfx.data.isPrefixOf msg.data then
    let rest := trimChars (msg.data.drop pfx.data.length)
    if rest.isEmpty then none
    else
      match splitFirstSpace rest with
      | (c, none) => some (⟨c.map Char.toLower⟩, "")
      | (c, some r) => some (⟨c.map Char.toLower⟩, ⟨r⟩)
  else none

/-- Privilege resolution of `Modules.handle_command` (lines 689-693):
unauthenticated callers get `USER_LEVEL_NOPRIVS`. -/
def userLevelOf (env : CmdEnv) (e : Event) : Int :=
  match env.account e.server e.source with
  | some acct => env.accessLevel acct
  | none => USER_LEVEL_NOPRIVS

/-- `userlevel >= command_info.call_level` (line 701).  An unresolved
token level would raise `TypeError` in Python 3; theorems about routing
therefore restrict states to resolved (integer) levels, where this
comparison is exact. -/
def levOk (userlevel : Int) : Lev → Bool
  | .inr n => decide (userlevel ≥ n)
  | .inl _ => false

/-- Accumulator of the routing loop: the module table (command descriptors
are mutated in place by routing), the `called` dedup list, and the
dispatched `(handler, descriptor)` pairs in dispatch order. -/
structure RouteState where
  mods : List (String × ModuleData)
  called : List Handler
  disp : List (Handler × Command)

/--
The body of the routing double loop of `Modules.handle_command`
(lines 696-723) for one `(module name, search command)` pair:
privilege gate, channel-mode-restriction gate, whitelist expansion
(appending every whitelisted channel's member list to the descriptor's
`user_whitelist` **in place**), whitelist gate, then dedup by `call` and
dispatch.
-/
def routeStep (env : CmdEnv) (e : Event) (ulevel : Int) (st : RouteState)
    (mk : String × String) : RouteState :=
  match dlookup st.mods mk.1 with
  | none => st
  | some md =>
    match dlookup md.commands mk.2 with
    | none => st
    | some ci =>
      if levOk ulevel ci.call_level then
        if ci.channel_mode_restriction.isSome &&
            (e.ftIsUser ||
              (e.ftIsChannel &&
                !(e.ftHasPrivs e.sourceNick (ci.channel_mode_restriction.getD "")))) then
          st
        else
          let ccw := ci.channel_whitelist.map (env.istring e.server)
          let newUsers := ccw.flatMap (env.channelUsers e.server)
          let ci' := { ci with user_whitelist := ci.user_whitelist ++ newUsers }
          let mods' := dset st.mods mk.1 { md with commands := dset md.commands mk.2 ci' }
          if (decide (e.targetName ∈ ccw) || decide (e.sourceNick ∈ ci'.user_whitelist)
              || ccw.isEmpty) then
            if ci'.call ∈ st.called then { st with mods := mods' }
            else { mods := mods', called := st.called ++ [ci'.call],
                   disp := st.disp ++ [(ci'.call, ci')] }
          else { st with mods := mods' }
      else st

/--
`Modules.handle_command` (gbot/modules.py lines 675-723).  Returns the
updated module table (routing mutates command descriptors) and the
dispatched commands in dispatch order.
-/
def handle_command (env : CmdEnv) (e : Event) (mods : List (String × ModuleData))
    : List (String × ModuleData) × List (Handler × Command) :=
  match parseCmd env.pfx e.message with
  | none => (mods, [])
  | some cn =>
    let ulevel := userLevelOf env e
    let pairs := (sortStr (keysOf mods)).flatMap (fun mn => [(mn, "*"), (mn, cn.1)])
    let st := pairs.foldl (routeStep env e ulevel) { mods := mods, called := [], disp := [] }
    (st.mods, st.disp)

/--
Modelled from the spec: the routing described by the claim for C6 —
modules in lexicographic name order, the **literal** (case-folded) command
name checked first and the wildcard `*` entry consulted **only as a
fallback** when the literal name is absent, each match gated by
`callLevel`.  (Other gates omitted; the comparison input passes them.)
-/
def routerClaimC6 (env : CmdEnv) (e : Event) (mods : List (String × ModuleData))
    : List Handler :=
  match parseCmd env.pfx e.message with
  | none => []
  | some cn =>
    let ulevel := userLevelOf env e
    (sortStr (keysOf mods)).flatMap (fun mn =>
      match dlookup mods mn with
      | none => []
      | some md =>
        match dlookup md.commands cn.1 with
        | some ci => if levOk ulevel ci.call_level then [ci.call] else []
        | none =>
          match dlookup md.commands "*" with
          | some ci => if levOk ulevel ci.call_level then [ci.call] else []
          | none => [])

/-- The command descriptor stored for module `mk.1` under command key
`mk.2` in a module table. -/
def cmdAt (mods : List (String × ModuleData)) (mk : String × String) : Option Command :=
  (dlookup mods mk.1).bind (fun md => dlookup md.commands mk.2)

/-- Whether one command descriptor passes every routing gate of
`routeStep` for this event and privilege level, and which handler fires. -/
def gateFire (env : CmdEnv) (e : Event) (ulevel : Int) (ci : Command) : Option Handler :=
  if levOk ulevel ci.call_level then
    if ci.channel_mode_restriction.isSome &&
        (e.ftIsUser ||
          (e.ftIsChannel &&
            !(e.ftHasPrivs e.sourceNick (ci.channel_mode_restriction.getD "")))) then
      none
    else
      let ccw := ci.channel_whitelist.map (env.istring e.server)
      let newUsers := ccw.flatMap (env.channelUsers e.server)
      if (decide (e.targetName ∈ ccw)
          || decide (e.sourceNick ∈ ci.user_whitelist ++ newUsers)
          || ccw.isEmpty) then
        some ci.call
      else none
  else none

/-- Whether one `(module, search command)` candidate passes every routing
gate of `routeStep` (computed against a fixed module table). -/
def candidateFires (env : CmdEnv) (e : Event) (ulevel : Int)
    (mods : List (String × ModuleData)) (mk : String × String) : Option Handler :=
  match cmdAt mods mk with
  | none => none
  | some ci => gateFire env e ulevel ci

/-- The handlers of all gate-passing candidates, in visit order, before
deduplication. -/
def firedCalls (env : CmdEnv) (e : Event) (mods : List (String × ModuleData))
    (cname : String) : List Handler :=
  ((sortStr (keysOf mods)).flatMap (fun mn => [(mn, "*"), (mn, cname)])).filterMap
    (candidateFires env e (userLevelOf env e) mods)

/-- First-occurrence deduplication of a handler list. -/
def dedupH (called : List Handler) : List Handler → List Handler
  | [] => []
  | h :: r => if h ∈ called then dedupH called r else h :: dedupH (called ++ [h]) r

/-!
## Descriptor resolution (`Modules.return_command_dict`)
-/

/-- The descriptor-relevant part of the metadata dict handed to
`Modules.return_command_dict`: canonical name plus aliases, handler,
optional level tokens, restrictions. -/
structure CmdInfo where
  name : List String
  call : Handler
  description : List String
  call_level : Option Lev
  view_level : Option Lev
  channel_mode_restriction : Option String
  channel_whitelist : List String
  bound : Option Bool
deriving DecidableEq

/-- `if call_level in user_levels: call_level = user_levels[call_level]`
(lines 758-764): known tokens resolve to ordinals, unknown tokens are kept
verbatim, ordinals pass through. -/
def resolveLevel : Lev → Lev
  | .inl tok =>
    match dlookup user_levels tok with
    | some n => .inr n
    | none => .inl tok
  | .inr n => .inr n

/--
`Modules.return_command_dict` (gbot/modules.py lines 740-781): one
descriptor per name, the canonical name first, aliases carrying an
alias-to-canonical link; every produced descriptor shares the same
handler, levels and restrictions.  (`user_whitelist` starts empty;
modelled from the spec since `gbot/commands.py` is not in the sources.)
-/
def return_command_dict (info : CmdInfo) : List (String × Command) :=
  let call_level := resolveLevel (info.call_level.getD (.inr USER_LEVEL_NOPRIVS))
  let view_level := resolveLevel (info.view_level.getD call_level)
  match info.name with
  | [] => []
  | n0 :: rest =>
    let mk := fun (al : Option String) =>
      { call := info.call, description := info.description,
        call_level := call_level, view_level := view_level,
        channel_whitelist := info.channel_whitelist, user_whitelist := [],
        channel_mode_restriction := info.channel_mode_restriction,
        bound := info.bound.getD true, base_name := n0, aliasOf := al : Command }
    (n0, mk none) :: rest.map (fun n => (n, mk (some n0)))


/-!
## Concrete instances (used by the examples below)
-/

/-- An inbound public chat message carrying a command invocation. -/
def cEvent : Event :=
  { verb := "pubmsg", direction := "in", server := 0, source := "alice!u@h",
    sourceNick := "alice", message := "!foo bar", targetName := "#chan",
    ftIsUser := false, ftIsChannel := true, ftHasPrivs := fun _ _ => true,
    sourceAccount := none, sourceUserLevel := none }

/-- `cEvent` with a marker message, used as a handler's replacement event. -/
def cEventSaw : Event :=
  { cEvent with message := "saw" }

/-- A router environment: prefix `!`, an authenticated caller at level 3,
identity case-folding, and a two-member channel roster. -/
def cCmdEnv : CmdEnv :=
  { pfx := "!", account := fun _ _ => some "alice", accessLevel := fun _ => 3,
    istring := fun _ s => s, channelUsers := fun _ _ => ["bob", "carol"] }

/-- A wildcard command descriptor with handler 1 and no gates. -/
def cCmdA : Command :=
  { call := 1, description := [], call_level := .inr 0, view_level := .inr 0,
    channel_whitelist := [], user_whitelist := [],
    channel_mode_restriction := none, bound := true, base_name := "*",
    aliasOf := none }

/-- A literal `foo` command descriptor with handler 2 and no gates. -/
def cCmdB : Command :=
  { cCmdA with call := 2, base_name := "foo" }

/-- A module carrying both a wildcard command and a literal `foo` command. -/
def cModA : ModuleData :=
  { name := "A", globalAdminCmds := [], standardAdminNames := [],
    events := [], commands := [("*", cCmdA), ("foo", cCmdB)] }

/-- A bus environment whose single handler replaces the event with
`cEventSaw` exactly when the event already carries a source account. -/
def cBusEnv : BusEnv :=
  { account := fun _ _ => some "acct", accessLevel := fun _ => 3,
    sem := fun _ ev => if ev.sourceAccount.isSome then some cEventSaw else none }

/-- A listener index holding one inline handler 7 under priority 0,
direction `both`, event type `all`. -/
def cIdx : LIndex :=
  [(0, [("both", [("all", [(7, true)])])])]

/-- A starting dispatch state around `cEvent`. -/
def cDState : DState :=
  { ev := cEvent, called := [], spawned := [] }

/-- A handler semantics that always replaces the event with `cEventSaw`. -/
def cSemSaw : Handler → Event → Option Event := fun _ _ => some cEventSaw

/-- The descriptor `cCmdB` restricted to channel operators (`o`). -/
def cCmdOp : Command :=
  { cCmdB with channel_mode_restriction := some "o" }

/-- A module whose only command is the operator-restricted `foo`. -/
def cModOp : ModuleData :=
  { cModA with commands := [("foo", cCmdOp)] }

/-- `cEvent` delivered as a private message (the target is a user). -/
def cEventUser : Event :=
  { cEvent with ftIsUser := true, ftIsChannel := false }

/-- `cEvent` in a channel where the caller holds no privileges. -/
def cEventNoPriv : Event :=
  { cEvent with ftHasPrivs := fun _ _ => false }

/-- A `foo` descriptor carrying the shared handler 7. -/
def cCmdShared : Command :=
  { cCmdB with call := 7 }

/-- A module whose only command is the shared-handler `foo`. -/
def cModShared : ModuleData :=
  { cModA with commands := [("foo", cCmdShared)] }

/-- A `foo` descriptor whitelisted to channel `#wl`. -/
def cCmdWl : Command :=
  { cCmdB with channel_whitelist := ["#wl"] }

/-- A module whose only command is the channel-whitelisted `foo`. -/
def cModWl : ModuleData :=
  { cModA with commands := [("foo", cCmdWl)] }

/-!
## Association-list lemmas
-/

@[simp] theorem keysOf_nil {κ β : Type} : keysOf ([] : List (κ × β)) = [] := rfl

@[simp] theorem keysOf_cons {κ β : Type} (hd : κ × β) (tl : List (κ × β)) :
    keysOf (hd :: tl) = hd.1 :: keysOf tl := rfl

@[simp] theorem keysOf_append {κ β : Type} (l₁ l₂ : List (κ × β)) :
    keysOf (l₁ ++ l₂) = keysOf l₁ ++ keysOf l₂ := List.map_append _ _ _

theorem dlookup_nil {κ β : Type} [DecidableEq κ] (k : κ) :
    dlookup ([] : List (κ × β)) k = none := rfl

theorem dlookup_cons {κ β : Type} [DecidableEq κ] (p : κ × β) (l : List (κ × β)) (k : κ) :
    dlookup (p :: l) k = if p.1 = k then some p.2 else dlookup l k := rfl

theorem dlookup_append_of_none {κ β : Type} [DecidableEq κ] {l₁ : List (κ × β)} {k : κ}
    (l₂ : List (κ × β)) (h : dlookup l₁ k = none) :
    dlookup (l₁ ++ l₂) k = dlookup l₂ k := by
  induction l₁ with
  | nil => simp
  | cons hd tl ih =>
    rw [dlookup_cons] at h
    rw [List.cons_append, dlookup_cons]
    split at h
    · simp at h
    · next hne => rw [if_neg hne]; exact ih h

theorem dlookup_append_of_some {κ β : Type} [DecidableEq κ] {l₁ : List (κ × β)} {k : κ} {v : β}
    (l₂ : List (κ × β)) (h : dlookup l₁ k = some v) :
    dlookup (l₁ ++ l₂) k = some v := by
  induction l₁ with
  | nil => simp [dlookup] at h
  | cons hd tl ih =>
    rw [dlookup_cons] at h
    rw [List.cons_append, dlookup_cons]
    split at h
    · next he => rw [if_pos he]; exact h
    · next hne => rw [if_neg hne]; exact ih h

theorem dlookup_eq_none_iff {κ β : Type} [DecidableEq κ] {l : List (κ × β)} {k : κ} :
    dlookup l k = none ↔ k ∉ keysOf l := by
  induction l with
  | nil => simp [dlookup]
  | cons hd tl ih =>
    rw [dlookup_cons]
    by_cases he : hd.1 = k
    · rw [if_pos he]
      simp only [keysOf_cons, List.mem_cons]
      constructor
      · intro h; simp at h
      · intro h; exact absurd (Or.inl he.symm) h
    · rw [if_neg he]
      simp only [keysOf_cons, List.mem_cons]
      rw [ih]
      constructor
      · intro h hm
        rcases hm with hm | hm
        · exact he hm.symm
        · exact h hm
      · intro h hm; exact h (Or.inr hm)

theorem dlookup_isSome_iff {κ β : Type} [DecidableEq κ] {l : List (κ × β)} {k : κ} :
    (dlookup l k).isSome ↔ k ∈ keysOf l := by
  constructor
  · intro h
    by_contra hk
    rw [dlookup_eq_none_iff.mpr hk] at h
    simp at h
  · intro h
    cases ho : dlookup l k with
    | none => exact absurd h (dlookup_eq_none_iff.mp ho)
    | some v => simp

theorem mem_keys_of_lookup {κ β : Type} [DecidableEq κ] {l : List (κ × β)} {k : κ} {v : β}
    (h : dlookup l k = some v) : k ∈ keysOf l :=
  dlookup_isSome_iff.mp (by rw [h]; rfl)

theorem keysOf_dset {κ β : Type} [DecidableEq κ] (l : List (κ × β)) (k : κ) (v : β) :
    keysOf (dset l k v) = keysOf l := by
  induction l with
  | nil => rfl
  | cons hd tl ih =>
    rw [dset]
    split
    · simp
    · simp only [keysOf_cons]; rw [ih]

theorem dlookup_dset_self {κ β : Type} [DecidableEq κ] {l : List (κ × β)} {k : κ} (v : β)
    (h : k ∈ keysOf l) : dlookup (dset l k v) k = some v := by
  induction l with
  | nil => simp at h
  | cons hd tl ih =>
    rw [dset]
    split
    · next he => rw [dlookup_cons]; simp [he]
    · next hne =>
      rw [dlookup_cons, if_neg hne]
      simp only [keysOf_cons, List.mem_cons] at h
      rcases h with h | h
      · exact absurd h.symm hne
      · exact ih h

theorem dlookup_dset_ne {κ β : Type} [DecidableEq κ] (l : List (κ × β)) (k : κ) (v : β)
    {k' : κ} (h : k' ≠ k) : dlookup (dset l k v) k' = dlookup l k' := by
  induction l with
  | nil => rfl
  | cons hd tl ih =>
    rw [dset]
    split
    · next he =>
      have h1 : ¬ hd.1 = k' := by rw [he]; exact fun hh => h hh.symm
      rw [dlookup_cons, dlookup_cons]
      simp [h1]
    · rw [dlookup_cons, dlookup_cons]
      split
      · rfl
      · exact ih

theorem dset_eq_of_lookup {κ β : Type} [DecidableEq κ] {l : List (κ × β)} {k : κ} {v : β}
    (h : dlookup l k = some v) : dset l k v = l := by
  induction l with
  | nil => rfl
  | cons hd tl ih =>
    rw [dlookup_cons] at h
    rw [dset]
    split at h
    · next he =>
      rw [if_pos he]
      have hv : hd.2 = v := by injection h
      rw [← hv, Prod.mk.eta]
    · next hne => rw [if_neg hne, ih h]

theorem mem_dset {κ β : Type} [DecidableEq κ] {l : List (κ × β)} {k : κ} {v : β} {x : κ × β}
    (h : x ∈ dset l k v) : x = (k, v) ∨ x ∈ l := by
  induction l with
  | nil => simp [dset] at h
  | cons hd tl ih =>
    rw [dset] at h
    split at h
    · next he =>
      rcases List.mem_cons.mp h with h | h
      · left; rw [h, he]
      · right; exact List.mem_cons_of_mem _ h
    · rcases List.mem_cons.mp h with h | h
      · right; rw [h]; exact List.mem_cons_self _ _
      · rcases ih h with h | h
        · left; exact h
        · right; exact List.mem_cons_of_mem _ h

theorem dremove_sublist {κ β : Type} [DecidableEq κ] (l : List (κ × β)) (k : κ) :
    List.Sublist (dremove l k) l := by
  induction l with
  | nil => simp [dremove]
  | cons hd tl ih =>
    rw [dremove]
    split
    · exact List.Sublist.cons _ (List.Sublist.refl _)
    · exact List.Sublist.cons₂ _ ih

theorem dlookup_dremove_ne {κ β : Type} [DecidableEq κ] (l : List (κ × β)) (k : κ)
    {k' : κ} (h : k' ≠ k) : dlookup (dremove l k) k' = dlookup l k' := by
  induction l with
  | nil => rfl
  | cons hd tl ih =>
    rw [dremove]
    split
    · next he =>
      rw [dlookup_cons]
      have h1 : ¬ hd.1 = k' := by rw [he]; exact fun hh => h hh.symm
      rw [if_neg h1]
    · rw [dlookup_cons, dlookup_cons]
      split
      · rfl
      · exact ih

theorem dlookup_dremove_self {κ β : Type} [DecidableEq κ] {l : List (κ × β)} {k : κ}
    (h : (keysOf l).Nodup) : dlookup (dremove l k) k = none := by
  induction l with
  | nil => rfl
  | cons hd tl ih =>
    rw [keysOf_cons, List.nodup_cons] at h
    rw [dremove]
    split
    · next he =>
      apply dlookup_eq_none_iff.mpr
      rw [← he]
      exact h.1
    · next hne =>
      rw [dlookup_cons, if_neg hne]
      exact ih h.2

theorem dremove_append_not_mem {κ β : Type} [DecidableEq κ] {l : List (κ × β)} {k : κ} (v : β)
    (h : k ∉ keysOf l) : dremove (l ++ [(k, v)]) k = l := by
  induction l with
  | nil => simp [dremove]
  | cons hd tl ih =>
    simp only [keysOf_cons, List.mem_cons] at h
    rw [List.cons_append, dremove]
    have h1 : ¬ hd.1 = k := fun he => h (Or.inl he.symm)
    rw [if_neg h1, ih (fun hm => h (Or.inr hm))]

theorem removeFirst_append_not_mem {α : Type} [DecidableEq α] {l₁ : List α} {a : α}
    (l₂ : List α) (h : a ∉ l₁) : removeFirst (l₁ ++ a :: l₂) a = l₁ ++ l₂ := by
  induction l₁ with
  | nil => simp [removeFirst]
  | cons hd tl ih =>
    simp only [List.mem_cons] at h
    rw [List.cons_append, removeFirst]
    have h1 : ¬ hd = a := fun he => h (Or.inl he.symm)
    rw [if_neg h1, ih (fun hm => h (Or.inr hm))]
    rfl


theorem mem_of_lookup {κ β : Type} [DecidableEq κ] {l : List (κ × β)} {k : κ} {v : β}
    (h : dlookup l k = some v) : (k, v) ∈ l := by
  induction l with
  | nil => simp [dlookup] at h
  | cons hd tl ih =>
    rw [dlookup_cons] at h
    split at h
    · next he =>
      have hv : hd.2 = v := by injection h
      rw [← he, ← hv, Prod.mk.eta]
      exact List.mem_cons_self _ _
    · exact List.mem_cons_of_mem _ (ih h)

theorem dlookup_append_single_ne {κ β : Type} [DecidableEq κ] (l : List (κ × β)) (k : κ)
    (v : β) {k' : κ} (h : k' ≠ k) : dlookup (l ++ [(k, v)]) k' = dlookup l k' := by
  cases ho : dlookup l k' with
  | none =>
    rw [dlookup_append_of_none _ ho, dlookup_cons]
    have h2 : ¬ k = k' := fun he => h he.symm
    simp [h2, dlookup_nil, ho]
  | some w => rw [dlookup_append_of_some _ ho]

theorem look3_addListener_self (idx : LIndex) (p : Int) (d e : String) (t : Handler × Bool) :
    look3 (addListener idx p d e t) p d e = some ((look3 idx p d e).getD [] ++ [t]) := by
  cases hp : dlookup idx p with
  | none =>
    simp only [addListener, hp, look3]
    rw [dlookup_append_of_none _ hp]
    simp [dlookup_cons]
  | some dm =>
    have hpk : p ∈ keysOf idx := mem_keys_of_lookup hp
    cases hd : dlookup dm d with
    | none =>
      simp only [addListener, hp, hd, look3]
      rw [dlookup_dset_self _ hpk]
      simp only [Option.some_bind]
      rw [dlookup_append_of_none _ hd, hd]
      simp [dlookup_cons]
    | some em =>
      have hdk : d ∈ keysOf dm := mem_keys_of_lookup hd
      cases he : dlookup em e with
      | none =>
        simp only [addListener, hp, hd, he, look3]
        rw [dlookup_dset_self _ hpk]
        simp only [Option.some_bind]
        rw [dlookup_dset_self _ hdk, hd]
        simp only [Option.some_bind]
        rw [dlookup_append_of_none _ he, he]
        simp [dlookup_cons]
      | some l =>
        have hek : e ∈ keysOf em := mem_keys_of_lookup he
        simp only [addListener, hp, hd, he, look3]
        rw [dlookup_dset_self _ hpk]
        simp only [Option.some_bind]
        rw [dlookup_dset_self _ hdk, hd]
        simp only [Option.some_bind]
        rw [dlookup_dset_self _ hek, he]
        simp

theorem look3_addListener_other (idx : LIndex) (p : Int) (d e : String) (t : Handler × Bool)
    {p' : Int} {d' e' : String} (hne : ¬ (p' = p ∧ d' = d ∧ e' = e)) :
    look3 (addListener idx p d e t) p' d' e' = look3 idx p' d' e' := by
  by_cases hpp : p' = p
  · subst hpp
    have hde : ¬ (d' = d ∧ e' = e) := fun h => hne ⟨rfl, h⟩
    cases hp : dlookup idx p' with
    | none =>
      simp only [addListener, hp, look3]
      rw [dlookup_append_of_none _ hp]
      by_cases hdd : d' = d
      · subst hdd
        have hee : e' ≠ e := fun h => hde ⟨rfl, h⟩
        have h2 : ¬ e = e' := fun h => hee h.symm
        simp [dlookup_cons, dlookup_nil, h2]
      · have h2 : ¬ d = d' := fun h => hdd h.symm
        simp [dlookup_cons, dlookup_nil, h2]
    | some dm =>
      have hpk : p' ∈ keysOf idx := mem_keys_of_lookup hp
      cases hd : dlookup dm d with
      | none =>
        simp only [addListener, hp, hd, look3]
        rw [dlookup_dset_self _ hpk]
        simp only [Option.some_bind]
        by_cases hdd : d' = d
        · subst hdd
          have hee : e' ≠ e := fun h => hde ⟨rfl, h⟩
          have h2 : ¬ e = e' := fun h => hee h.symm
          rw [dlookup_append_of_none _ hd, hd]
          simp [dlookup_cons, dlookup_nil, h2]
        · rw [dlookup_append_single_ne _ _ _ hdd]
      | some em =>
        have hdk : d ∈ keysOf dm := mem_keys_of_lookup hd
        cases he : dlookup em e with
        | none =>
          simp only [addListener, hp, hd, he, look3]
          rw [dlookup_dset_self _ hpk]
          simp only [Option.some_bind]
          by_cases hdd : d' = d
          · subst hdd
            have hee : e' ≠ e := fun h => hde ⟨rfl, h⟩
            rw [dlookup_dset_self _ hdk, hd]
            simp only [Option.some_bind]
            rw [dlookup_append_single_ne _ _ _ hee]
          · rw [dlookup_dset_ne _ _ _ hdd]
        | some l =>
          have hek : e ∈ keysOf em := mem_keys_of_lookup he
          simp only [addListener, hp, hd, he, look3]
          rw [dlookup_dset_self _ hpk]
          simp only [Option.some_bind]
          by_cases hdd : d' = d
          · subst hdd
            have hee : e' ≠ e := fun h => hde ⟨rfl, h⟩
            rw [dlookup_dset_self _ hdk, hd]
            simp only [Option.some_bind]
            rw [dlookup_dset_ne _ _ _ hee]
          · rw [dlookup_dset_ne _ _ _ hdd]
  · cases hp : dlookup idx p with
    | none =>
      simp only [addListener, hp, look3]
      rw [dlookup_append_single_ne _ _ _ hpp]
    | some dm =>
      cases hd : dlookup dm d with
      | none =>
        simp only [addListener, hp, hd, look3]
        rw [dlookup_dset_ne _ _ _ hpp]
      | some em =>
        cases he : dlookup em e with
        | none =>
          simp only [addListener, hp, hd, he, look3]
          rw [dlookup_dset_ne _ _ _ hpp]
        | some l =>
          simp only [addListener, hp, hd, he, look3]
          rw [dlookup_dset_ne _ _ _ hpp]

theorem isEmpty_true_iff {α : Type} (l : List α) : l.isEmpty = true ↔ l = [] := by
  cases l <;> simp

theorem isEmpty_false_iff {α : Type} (l : List α) : l.isEmpty = false ↔ l ≠ [] := by
  cases l <;> simp

theorem dset_ne_nil {κ β : Type} [DecidableEq κ] {l : List (κ × β)} (k : κ) (v : β)
    (h : l ≠ []) : dset l k v ≠ [] := by
  cases l with
  | nil => exact absurd rfl h
  | cons hd tl => rw [dset]; split <;> simp

theorem eq_singleton_of_dremove_nil {κ β : Type} [DecidableEq κ] {l : List (κ × β)} {k : κ}
    {v : β} (hl : dlookup l k = some v) (h : dremove l k = []) : l = [(k, v)] := by
  cases l with
  | nil => simp [dlookup] at hl
  | cons hd tl =>
    rw [dremove] at h
    split at h
    · next he =>
      subst h
      rw [dlookup_cons, if_pos he] at hl
      have hv : hd.2 = v := by injection hl
      rw [← he, ← hv, Prod.mk.eta]
    · simp at h

theorem dcollapse_of_empty {κ β : Type} [DecidableEq κ] {empty : β → Bool}
    {m : List (κ × β)} {k : κ} {v : β} (h : empty v = true) :
    dcollapse empty m k v = dremove m k := by
  unfold dcollapse; rw [if_pos h]

theorem dcollapse_of_nonempty {κ β : Type} [DecidableEq κ] {empty : β → Bool}
    {m : List (κ × β)} {k : κ} {v : β} (h : empty v = false) :
    dcollapse empty m k v = dset m k v := by
  unfold dcollapse; rw [if_neg (by simp [h])]

theorem dlookup_dcollapse_ne {κ β : Type} [DecidableEq κ] (empty : β → Bool)
    (m : List (κ × β)) (k : κ) (v : β) {k' : κ} (h : k' ≠ k) :
    dlookup (dcollapse empty m k v) k' = dlookup m k' := by
  unfold dcollapse; split
  · exact dlookup_dremove_ne _ _ h
  · exact dlookup_dset_ne _ _ _ h

theorem dcollapse_eq_nil {κ β : Type} [DecidableEq κ] {empty : β → Bool} {m : List (κ × β)}
    {k : κ} {v : β} (hm : m ≠ []) (h : dcollapse empty m k v = []) :
    empty v = true ∧ dremove m k = [] := by
  unfold dcollapse at h
  split at h
  · next hc => exact ⟨hc, h⟩
  · exact absurd h (dset_ne_nil _ _ hm)

theorem look3_remListener_other (idx : LIndex) (p : Int) (d e : String) (t : Handler × Bool)
    (hWF : WFIndex idx) {p' : Int} {d' e' : String}
    (hne : ¬ (p' = p ∧ d' = d ∧ e' = e)) :
    look3 (remListener idx p d e t) p' d' e' = look3 idx p' d' e' := by
  cases hp : dlookup idx p with
  | none => simp only [remListener, hp]
  | some dm =>
    cases hd : dlookup dm d with
    | none => simp only [remListener, hp, hd]
    | some em =>
      cases he : dlookup em e with
      | none => simp only [remListener, hp, hd, he]
      | some l =>
        have hpk : p ∈ keysOf idx := mem_keys_of_lookup hp
        have hdk : d ∈ keysOf dm := mem_keys_of_lookup hd
        obtain ⟨hknd, hmem⟩ := hWF
        obtain ⟨hdmne, hdmnd, hdmem⟩ := hmem _ (mem_of_lookup hp)
        obtain ⟨hemne, hemnd, _⟩ := hdmem _ (mem_of_lookup hd)
        simp only [remListener, hp, hd, he]
        by_cases hpp : p' = p
        · subst hpp
          have hde : ¬ (d' = d ∧ e' = e) := fun h => hne ⟨rfl, h⟩
          simp only [look3]
          by_cases hdmnil :
              dcollapse List.isEmpty dm d (dcollapse List.isEmpty em e (removeFirst l t)) = []
          · rw [dcollapse_of_empty ((isEmpty_true_iff _).mpr hdmnil),
              dlookup_dremove_self hknd, hp, Option.some_bind]
            obtain ⟨hemE, hdmrem⟩ := dcollapse_eq_nil hdmne hdmnil
            have hemnil := (isEmpty_true_iff _).mp hemE
            obtain ⟨hlE, hemrem⟩ := dcollapse_eq_nil hemne hemnil
            have hdm1 : dm = [(d, em)] := eq_singleton_of_dremove_nil hd hdmrem
            have hem1 : em = [(e, l)] := eq_singleton_of_dremove_nil he hemrem
            rw [hdm1, dlookup_cons]
            by_cases hdd : d' = d
            · subst hdd
              have hee : e' ≠ e := fun h => hde ⟨rfl, h⟩
              have h2 : ¬ e = e' := fun h => hee h.symm
              rw [hem1]
              simp [dlookup_cons, dlookup_nil, h2]
            · have h2 : ¬ d = d' := fun h => hdd h.symm
              simp [dlookup_cons, dlookup_nil, h2]
          · rw [dcollapse_of_nonempty ((isEmpty_false_iff _).mpr hdmnil),
              dlookup_dset_self _ hpk, hp, Option.some_bind, Option.some_bind]
            by_cases hdd : d' = d
            · subst hdd
              have hee : e' ≠ e := fun h => hde ⟨rfl, h⟩
              by_cases hemnil : dcollapse List.isEmpty em e (removeFirst l t) = []
              · rw [dcollapse_of_empty ((isEmpty_true_iff _).mpr hemnil),
                  dlookup_dremove_self hdmnd, hd, Option.some_bind]
                obtain ⟨hlE, hemrem⟩ := dcollapse_eq_nil hemne hemnil
                have hem1 : em = [(e, l)] := eq_singleton_of_dremove_nil he hemrem
                have h2 : ¬ e = e' := fun h => hee h.symm
                rw [hem1]
                simp [dlookup_cons, dlookup_nil, h2]
              · rw [dcollapse_of_nonempty ((isEmpty_false_iff _).mpr hemnil),
                  dlookup_dset_self _ hdk, hd, Option.some_bind, Option.some_bind,
                  dlookup_dcollapse_ne _ _ _ _ hee]
            · rw [dlookup_dcollapse_ne _ _ _ _ hdd]
        · simp only [look3]
          rw [dlookup_dcollapse_ne _ _ _ _ hpp]

theorem look3_remListener_self (idx : LIndex) (p : Int) (d e : String) (t : Handler × Bool)
    (hWF : WFIndex idx) :
    look3 (remListener idx p d e t) p d e =
      (look3 idx p d e).bind (fun l =>
        if removeFirst l t = [] then none else some (removeFirst l t)) := by
  cases hp : dlookup idx p with
  | none => simp only [remListener, hp, look3, Option.none_bind]
  | some dm =>
    cases hd : dlookup dm d with
    | none => simp only [remListener, hp, hd, look3, Option.some_bind, Option.none_bind]
    | some em =>
      cases he : dlookup em e with
      | none => simp only [remListener, hp, hd, he, look3, Option.some_bind, Option.none_bind]
      | some l =>
        have hpk : p ∈ keysOf idx := mem_keys_of_lookup hp
        have hdk : d ∈ keysOf dm := mem_keys_of_lookup hd
        have hek : e ∈ keysOf em := mem_keys_of_lookup he
        obtain ⟨hknd, hmem⟩ := hWF
        obtain ⟨hdmne, hdmnd, hdmem⟩ := hmem _ (mem_of_lookup hp)
        obtain ⟨hemne, hemnd, _⟩ := hdmem _ (mem_of_lookup hd)
        simp only [remListener, hp, hd, he, look3, Option.some_bind]
        by_cases hl'nil : removeFirst l t = []
        · rw [if_pos hl'nil]
          rw [show dcollapse List.isEmpty em e (removeFirst l t) = dremove em e from
            dcollapse_of_empty (by rw [hl'nil]; rfl)]
          by_cases hemnil : dremove em e = []
          · rw [show dcollapse List.isEmpty dm d (dremove em e) = dremove dm d from
              dcollapse_of_empty (by rw [hemnil]; rfl)]
            by_cases hdmnil : dremove dm d = []
            · rw [dcollapse_of_empty ((isEmpty_true_iff _).mpr hdmnil),
                dlookup_dremove_self hknd]
              simp
            · rw [dcollapse_of_nonempty ((isEmpty_false_iff _).mpr hdmnil),
                dlookup_dset_self _ hpk, Option.some_bind, dlookup_dremove_self hdmnd]
              simp
          · rw [show dcollapse List.isEmpty dm d (dremove em e) = dset dm d (dremove em e) from
              dcollapse_of_nonempty ((isEmpty_false_iff _).mpr hemnil)]
            have hdm'ne : dset dm d (dremove em e) ≠ [] := dset_ne_nil _ _ hdmne
            rw [dcollapse_of_nonempty ((isEmpty_false_iff _).mpr hdm'ne),
              dlookup_dset_self _ hpk, Option.some_bind, dlookup_dset_self _ hdk,
              Option.some_bind, dlookup_dremove_self hemnd]
        · rw [if_neg hl'nil]
          rw [show dcollapse List.isEmpty em e (removeFirst l t) = dset em e (removeFirst l t)
            from dcollapse_of_nonempty ((isEmpty_false_iff _).mpr hl'nil)]
          have hem'ne : dset em e (removeFirst l t) ≠ [] := dset_ne_nil _ _ hemne
          rw [show dcollapse List.isEmpty dm d (dset em e (removeFirst l t))
              = dset dm d (dset em e (removeFirst l t)) from
            dcollapse_of_nonempty ((isEmpty_false_iff _).mpr hem'ne)]
          have hdm'ne : dset dm d (dset em e (removeFirst l t)) ≠ [] := dset_ne_nil _ _ hdmne
          rw [dcollapse_of_nonempty ((isEmpty_false_iff _).mpr hdm'ne),
            dlookup_dset_self _ hpk, Option.some_bind, dlookup_dset_self _ hdk,
            Option.some_bind, dlookup_dset_self _ hek]

theorem dset_wf {κ β : Type} [DecidableEq κ] (P : β → Prop) {m : List (κ × β)} (k : κ)
    (v : β) (hknd : (keysOf m).Nodup) (hmem : ∀ x ∈ m, P x.2) (hv : P v) :
    (keysOf (dset m k v)).Nodup ∧ ∀ x ∈ dset m k v, P x.2 := by
  refine ⟨by rw [keysOf_dset]; exact hknd, ?_⟩
  intro x hx
  rcases mem_dset hx with h | h
  · rw [h]; exact hv
  · exact hmem x h

theorem append_single_wf {κ β : Type} [DecidableEq κ] (P : β → Prop) {m : List (κ × β)}
    (k : κ) (v : β) (hknd : (keysOf m).Nodup) (hmem : ∀ x ∈ m, P x.2)
    (hk : k ∉ keysOf m) (hv : P v) :
    (keysOf (m ++ [(k, v)])).Nodup ∧ ∀ x ∈ m ++ [(k, v)], P x.2 := by
  constructor
  · rw [keysOf_append]
    refine List.Nodup.append hknd (by simp) ?_
    intro x hx hx2
    simp only [keysOf_cons, keysOf_nil, List.mem_singleton] at hx2
    subst hx2
    exact hk hx
  · intro x hx
    rcases List.mem_append.mp hx with h | h
    · exact hmem x h
    · simp only [List.mem_singleton] at h
      rw [h]; exact hv

theorem dcollapse_wf {κ β : Type} [DecidableEq κ] (P : β → Prop) (empty : β → Bool)
    {m : List (κ × β)} (k : κ) (v : β) (hknd : (keysOf m).Nodup)
    (hmem : ∀ x ∈ m, P x.2) (hv : empty v = false → P v) :
    (keysOf (dcollapse empty m k v)).Nodup ∧ ∀ x ∈ dcollapse empty m k v, P x.2 := by
  unfold dcollapse
  split
  · constructor
    · exact List.Nodup.sublist (List.Sublist.map Prod.fst (dremove_sublist m k)) hknd
    · intro x hx
      exact hmem x ((dremove_sublist m k).subset hx)
  · next hne =>
    have hf : empty v = false := by revert hne; cases empty v <;> simp
    exact dset_wf P k v hknd hmem (hv hf)

theorem WF_addListener (idx : LIndex) (p : Int) (d e : String) (t : Handler × Bool)
    (h : WFIndex idx) : WFIndex (addListener idx p d e t) := by
  obtain ⟨hknd, hmem⟩ := h
  cases hp : dlookup idx p with
  | none =>
    simp only [addListener, hp]
    have hpk : p ∉ keysOf idx := dlookup_eq_none_iff.mp hp
    have hres := append_single_wf (fun dm => dm ≠ [] ∧ (keysOf dm).Nodup ∧
        ∀ de ∈ dm, de.2 ≠ [] ∧ (keysOf de.2).Nodup ∧ ∀ et ∈ de.2, et.2 ≠ [])
      p [(d, [(e, [t])])] hknd hmem hpk (by
        refine ⟨by simp, by simp, ?_⟩
        intro de hde
        simp only [List.mem_singleton] at hde
        subst hde
        refine ⟨by simp, by simp, ?_⟩
        intro et het
        simp only [List.mem_singleton] at het
        subst het
        simp)
    exact ⟨hres.1, hres.2⟩
  | some dm =>
    have hpk : p ∈ keysOf idx := mem_keys_of_lookup hp
    obtain ⟨hdmne, hdmnd, hdmem⟩ := hmem _ (mem_of_lookup hp)
    cases hd : dlookup dm d with
    | none =>
      simp only [addListener, hp, hd]
      have hdk : d ∉ keysOf dm := dlookup_eq_none_iff.mp hd
      have hInner := append_single_wf
        (fun em => em ≠ [] ∧ (keysOf em).Nodup ∧ ∀ et ∈ em, et.2 ≠ [])
        d [(e, [t])] hdmnd hdmem hdk (by
          refine ⟨by simp, by simp, ?_⟩
          intro et het
          simp only [List.mem_singleton] at het
          subst het
          simp)
      have hres := dset_wf (fun dm => dm ≠ [] ∧ (keysOf dm).Nodup ∧
          ∀ de ∈ dm, de.2 ≠ [] ∧ (keysOf de.2).Nodup ∧ ∀ et ∈ de.2, et.2 ≠ [])
        p (dm ++ [(d, [(e, [t])])]) hknd hmem ⟨by simp, hInner.1, hInner.2⟩
      exact ⟨hres.1, hres.2⟩
    | some em =>
      have hdk : d ∈ keysOf dm := mem_keys_of_lookup hd
      obtain ⟨hemne, hemnd, hemem⟩ := hdmem _ (mem_of_lookup hd)
      cases he : dlookup em e with
      | none =>
        simp only [addListener, hp, hd, he]
        have hek : e ∉ keysOf em := dlookup_eq_none_iff.mp he
        have hInner := append_single_wf (fun tl : TList => tl ≠ [])
          e [t] hemnd hemem hek (by simp)
        have hMid := dset_wf
          (fun em => em ≠ [] ∧ (keysOf em).Nodup ∧ ∀ et ∈ em, et.2 ≠ [])
          d (em ++ [(e, [t])]) hdmnd hdmem ⟨by simp, hInner.1, hInner.2⟩
        have hres := dset_wf (fun dm => dm ≠ [] ∧ (keysOf dm).Nodup ∧
            ∀ de ∈ dm, de.2 ≠ [] ∧ (keysOf de.2).Nodup ∧ ∀ et ∈ de.2, et.2 ≠ [])
          p (dset dm d (em ++ [(e, [t])])) hknd hmem
          ⟨dset_ne_nil _ _ hdmne, hMid.1, hMid.2⟩
        exact ⟨hres.1, hres.2⟩
      | some l =>
        simp only [addListener, hp, hd, he]
        have hek : e ∈ keysOf em := mem_keys_of_lookup he
        have hInner := dset_wf (fun tl : TList => tl ≠ [])
          e (l ++ [t]) hemnd hemem (by simp)
        have hMid := dset_wf
          (fun em => em ≠ [] ∧ (keysOf em).Nodup ∧ ∀ et ∈ em, et.2 ≠ [])
          d (dset em e (l ++ [t])) hdmnd hdmem
          ⟨dset_ne_nil _ _ hemne, hInner.1, hInner.2⟩
        have hres := dset_wf (fun dm => dm ≠ [] ∧ (keysOf dm).Nodup ∧
            ∀ de ∈ dm, de.2 ≠ [] ∧ (keysOf de.2).Nodup ∧ ∀ et ∈ de.2, et.2 ≠ [])
          p (dset dm d (dset em e (l ++ [t]))) hknd hmem
          ⟨dset_ne_nil _ _ hdmne, hMid.1, hMid.2⟩
        exact ⟨hres.1, hres.2⟩

theorem WF_remListener (idx : LIndex) (p : Int) (d e : String) (t : Handler × Bool)
    (h : WFIndex idx) : WFIndex (remListener idx p d e t) := by
  obtain ⟨hknd, hmem⟩ := h
  cases hp : dlookup idx p with
  | none => simp only [remListener, hp]; exact ⟨hknd, hmem⟩
  | some dm =>
    obtain ⟨hdmne, hdmnd, hdmem⟩ := hmem _ (mem_of_lookup hp)
    cases hd : dlookup dm d with
    | none => simp only [remListener, hp, hd]; exact ⟨hknd, hmem⟩
    | some em =>
      obtain ⟨hemne, hemnd, hemem⟩ := hdmem _ (mem_of_lookup hd)
      cases he : dlookup em e with
      | none => simp only [remListener, hp, hd, he]; exact ⟨hknd, hmem⟩
      | some l =>
        simp only [remListener, hp, hd, he]
        have hInner := dcollapse_wf (fun tl : TList => tl ≠ [])
          List.isEmpty e (removeFirst l t) hemnd hemem
          (fun hne => (isEmpty_false_iff _).mp hne)
        have hMid := dcollapse_wf
          (fun em => em ≠ [] ∧ (keysOf em).Nodup ∧ ∀ et ∈ em, et.2 ≠ [])
          List.isEmpty d (dcollapse List.isEmpty em e (removeFirst l t)) hdmnd hdmem
          (fun hne => ⟨(isEmpty_false_iff _).mp hne, hInner.1, hInner.2⟩)
        have hres := dcollapse_wf (fun dm => dm ≠ [] ∧ (keysOf dm).Nodup ∧
            ∀ de ∈ dm, de.2 ≠ [] ∧ (keysOf de.2).Nodup ∧ ∀ et ∈ de.2, et.2 ≠ [])
          List.isEmpty p
          (dcollapse List.isEmpty dm d (dcollapse List.isEmpty em e (removeFirst l t)))
          hknd hmem
          (fun hne => ⟨(isEmpty_false_iff _).mp hne, hMid.1, hMid.2⟩)
        exact ⟨hres.1, hres.2⟩

theorem addAll_nil (idx : LIndex) : addAll [] idx = idx := rfl

theorem addAll_cons (x : LEntry) (es : List LEntry) (idx : LIndex) :
    addAll (x :: es) idx = addAll es (addListener idx x.1 x.2.1 x.2.2.1 x.2.2.2) := rfl

theorem remAll_nil (idx : LIndex) : remAll [] idx = idx := rfl

theorem remAll_cons (x : LEntry) (es : List LEntry) (idx : LIndex) :
    remAll (x :: es) idx = remAll es (remListener idx x.1 x.2.1 x.2.2.1 x.2.2.2) := rfl

theorem WF_addAll (es : List LEntry) (idx : LIndex) (h : WFIndex idx) :
    WFIndex (addAll es idx) := by
  induction es generalizing idx with
  | nil => exact h
  | cons x r ih => rw [addAll_cons]; exact ih _ (WF_addListener _ _ _ _ _ h)

theorem WF_remAll (es : List LEntry) (idx : LIndex) (h : WFIndex idx) :
    WFIndex (remAll es idx) := by
  induction es generalizing idx with
  | nil => exact h
  | cons x r ih => rw [remAll_cons]; exact ih _ (WF_remListener _ _ _ _ _ h)

theorem tupsAt_cons (x : LEntry) (es : List LEntry) (p : Int) (d e : String) :
    tupsAt (x :: es) p d e =
      (if x.1 = p ∧ x.2.1 = d ∧ x.2.2.1 = e then [x.2.2.2] else []) ++ tupsAt es p d e := by
  unfold tupsAt
  by_cases hc : x.1 = p ∧ x.2.1 = d ∧ x.2.2.1 = e
  · rw [List.filterMap_cons, if_pos hc, if_pos hc]
    simp
  · rw [List.filterMap_cons, if_neg hc, if_neg hc]
    simp

theorem appT_nil (o : Option TList) : appT o [] = o := by
  cases o <;> simp [appT]

theorem appT_cons (o : Option TList) (t : Handler × Bool) (ts : TList) :
    appT o (t :: ts) = appT (some (o.getD [] ++ [t])) ts := by
  cases o <;> cases ts <;> simp [appT]

theorem look3_addAll (es : List LEntry) (idx : LIndex) (p : Int) (d e : String) :
    look3 (addAll es idx) p d e = appT (look3 idx p d e) (tupsAt es p d e) := by
  induction es generalizing idx with
  | nil => rw [addAll_nil, show tupsAt [] p d e = [] from rfl, appT_nil]
  | cons x r ih =>
    rw [addAll_cons, tupsAt_cons]
    by_cases hx : x.1 = p ∧ x.2.1 = d ∧ x.2.2.1 = e
    · rw [if_pos hx, ih]
      obtain ⟨h1, h2, h3⟩ := hx
      subst h1; subst h2; subst h3
      rw [look3_addListener_self, List.singleton_append, appT_cons]
    · rw [if_neg hx, List.nil_append, ih]
      have hne : ¬ (p = x.1 ∧ d = x.2.1 ∧ e = x.2.2.1) :=
        fun hcon => hx ⟨hcon.1.symm, hcon.2.1.symm, hcon.2.2.symm⟩
      rw [look3_addListener_other _ _ _ _ _ hne]

theorem remSeqT_nil (o : Option TList) : remSeqT o [] = o := rfl

theorem remSeqT_cons (o : Option TList) (t : Handler × Bool) (ts : TList) :
    remSeqT o (t :: ts) = remSeqT
      (match o with
        | none => none
        | some l => if removeFirst l t = [] then none else some (removeFirst l t)) ts := rfl

theorem look3_remAll (es : List LEntry) (idx : LIndex) (hWF : WFIndex idx)
    (p : Int) (d e : String) :
    look3 (remAll es idx) p d e = remSeqT (look3 idx p d e) (tupsAt es p d e) := by
  induction es generalizing idx with
  | nil => rw [remAll_nil, show tupsAt [] p d e = [] from rfl, remSeqT_nil]
  | cons x r ih =>
    rw [remAll_cons, tupsAt_cons]
    by_cases hx : x.1 = p ∧ x.2.1 = d ∧ x.2.2.1 = e
    · rw [if_pos hx, ih _ (WF_remListener _ _ _ _ _ hWF)]
      obtain ⟨h1, h2, h3⟩ := hx
      subst h1; subst h2; subst h3
      rw [look3_remListener_self _ _ _ _ _ hWF, List.singleton_append, remSeqT_cons]
      cases look3 idx x.1 x.2.1 x.2.2.1 with
      | none => rw [Option.none_bind]
      | some l => rw [Option.some_bind]
    · rw [if_neg hx, List.nil_append, ih _ (WF_remListener _ _ _ _ _ hWF)]
      have hne : ¬ (p = x.1 ∧ d = x.2.1 ∧ e = x.2.2.1) :=
        fun hcon => hx ⟨hcon.1.symm, hcon.2.1.symm, hcon.2.2.symm⟩
      rw [look3_remListener_other _ _ _ _ _ hWF hne]

theorem remSeqT_cons_some (l : TList) (t : Handler × Bool) (ts : TList) :
    remSeqT (some l) (t :: ts) =
      remSeqT (if removeFirst l t = [] then none else some (removeFirst l t)) ts := rfl

theorem remSeqT_appT_cancel (o : Option TList) (ts : TList) (ho : o ≠ some [])
    (hnd : ts.Nodup) (hfresh : ∀ t ∈ ts, t ∉ o.getD []) :
    remSeqT (appT o ts) ts = o := by
  induction ts generalizing o with
  | nil => rw [appT_nil, remSeqT_nil]
  | cons t r ih =>
    have hfr : t ∉ o.getD [] := hfresh t (List.mem_cons_self _ _)
    have happ : appT o (t :: r) = some (o.getD [] ++ t :: r) := by
      cases o <;> simp [appT]
    rw [happ, remSeqT_cons_some, removeFirst_append_not_mem _ hfr]
    by_cases hnil : o.getD [] ++ r = []
    · rw [if_pos hnil]
      obtain ⟨hl, hr⟩ := List.append_eq_nil.mp hnil
      have ho' : o = none := by
        cases o with
        | none => rfl
        | some l =>
          simp only [Option.getD_some] at hl
          subst hl
          exact absurd rfl ho
      subst hr
      rw [remSeqT_nil, ho']
    · rw [if_neg hnil]
      have happ2 : appT o r = some (o.getD [] ++ r) := by
        cases o with
        | none =>
          cases r with
          | nil => exact absurd (by simp) hnil
          | cons a b => simp [appT]
        | some l => simp [appT]
      rw [← happ2]
      exact ih o ho (List.nodup_cons.mp hnd).2
        (fun t' ht' => hfresh t' (List.mem_cons_of_mem _ ht'))

theorem filterMap_nil_of_none {α β : Type} {f : α → Option β} {l : List α}
    (h : ∀ a ∈ l, f a = none) : List.filterMap f l = [] := by
  induction l with
  | nil => rfl
  | cons x r ih =>
    rw [List.filterMap_cons, h x (List.mem_cons_self _ _)]
    exact ih (fun a ha => h a (List.mem_cons_of_mem _ ha))

theorem entriesFor_dir {events : DirEvents} {d' : String} {x : LEntry}
    (h : x ∈ entriesFor events d') : x.2.1 = d' := by
  unfold entriesFor at h
  cases hd : dlookup events d' with
  | none => rw [hd] at h; simp at h
  | some em =>
    rw [hd] at h
    simp only [List.mem_flatMap, List.mem_map] at h
    obtain ⟨et, _, tr, _, hx⟩ := h
    rw [← hx]

theorem tupsAt_append (es₁ es₂ : List LEntry) (p : Int) (d e : String) :
    tupsAt (es₁ ++ es₂) p d e = tupsAt es₁ p d e ++ tupsAt es₂ p d e := by
  unfold tupsAt
  rw [List.filterMap_append]

theorem tupsAt_entriesFor_ne (ev : DirEvents) (d' : String) {p : Int} {d e : String}
    (h : d' ≠ d) : tupsAt (entriesFor ev d') p d e = [] := by
  unfold tupsAt
  apply filterMap_nil_of_none
  intro a ha
  have hdir := entriesFor_dir ha
  rw [if_neg]
  intro hcon
  exact h (hdir ▸ hcon.2.1)

theorem tupsAt_flatSeq_dirs (ev : DirEvents) (p : Int) (d e : String) :
    tupsAt (flatSeq ev dirsLoad) p d e = tupsAt (flatSeq ev dirsUnload) p d e := by
  unfold flatSeq dirsLoad dirsUnload
  simp only [List.flatMap_cons, List.flatMap_nil, List.append_nil]
  rw [tupsAt_append, tupsAt_append, tupsAt_append, tupsAt_append]
  by_cases h1 : d = "in"
  · subst h1
    rw [tupsAt_entriesFor_ne ev "out" (by decide), tupsAt_entriesFor_ne ev "both" (by decide)]
    simp
  · by_cases h2 : d = "out"
    · subst h2
      rw [tupsAt_entriesFor_ne ev "in" (by decide), tupsAt_entriesFor_ne ev "both" (by decide)]
      simp
    · by_cases h3 : d = "both"
      · subst h3
        rw [tupsAt_entriesFor_ne ev "in" (by decide), tupsAt_entriesFor_ne ev "out" (by decide)]
        simp
      · rw [tupsAt_entriesFor_ne ev "in" (fun hh => h1 hh.symm),
          tupsAt_entriesFor_ne ev "out" (fun hh => h2 hh.symm),
          tupsAt_entriesFor_ne ev "both" (fun hh => h3 hh.symm)]

theorem tupsAt_nodup {es : List LEntry} (h : es.Nodup) (p : Int) (d e : String) :
    (tupsAt es p d e).Nodup := by
  unfold tupsAt
  apply List.Nodup.filterMap _ h
  intro a a' b hb hb'
  split at hb
  · next ha =>
    simp only [Option.mem_def, Option.some.injEq] at hb
    split at hb'
    · next ha' =>
      simp only [Option.mem_def, Option.some.injEq] at hb'
      obtain ⟨ha1, ha2, ha3⟩ := ha
      obtain ⟨ha1', ha2', ha3'⟩ := ha'
      rcases a with ⟨a1, a2, a3, a4⟩
      rcases a' with ⟨b1, b2, b3, b4⟩
      simp_all
    · simp at hb'
  · simp at hb

theorem look3_ne_some_nil {idx : LIndex} {p : Int} {d e : String} (h : WFIndex idx) :
    look3 idx p d e ≠ some [] := by
  intro hc
  unfold look3 at hc
  cases hp : dlookup idx p with
  | none => rw [hp] at hc; simp at hc
  | some dm =>
    rw [hp, Option.some_bind] at hc
    cases hd : dlookup dm d with
    | none => rw [hd] at hc; simp at hc
    | some em =>
      rw [hd, Option.some_bind] at hc
      obtain ⟨_, hmem⟩ := h
      obtain ⟨_, _, hdmem⟩ := hmem _ (mem_of_lookup hp)
      obtain ⟨_, _, hemem⟩ := hdmem _ (mem_of_lookup hd)
      exact hemem _ (mem_of_lookup hc) rfl

theorem look3_roundtrip (ev : DirEvents) (idx : LIndex) (hWF : WFIndex idx)
    (hfresh : ∀ x ∈ flatSeq ev dirsLoad, x.2.2.2 ∉ (look3 idx x.1 x.2.1 x.2.2.1).getD [])
    (hnd : (flatSeq ev dirsLoad).Nodup) (p : Int) (d e : String) :
    look3 (remAll (flatSeq ev dirsUnload) (addAll (flatSeq ev dirsLoad) idx)) p d e
      = look3 idx p d e := by
  rw [look3_remAll _ _ (WF_addAll _ _ hWF), look3_addAll, ← tupsAt_flatSeq_dirs]
  apply remSeqT_appT_cancel _ _ (look3_ne_some_nil hWF) (tupsAt_nodup hnd p d e)
  intro t ht
  obtain ⟨x, hx, hfx⟩ := List.mem_filterMap.mp ht
  split at hfx
  · next hcond =>
    obtain ⟨h1, h2, h3⟩ := hcond
    have ht' : t = x.2.2.2 := by injection hfx with hh; exact hh.symm
    rw [ht', ← h1, ← h2, ← h3]
    exact hfresh x hx
  · simp at hfx

theorem bool_eq_of_iff {a b : Bool} (h : a = true ↔ b = true) : a = b := by
  cases a <;> cases b <;> simp_all

theorem isSome_dlookup_iff_leaf {idx : LIndex} {p : Int} (h : WFIndex idx) :
    (dlookup idx p).isSome = true ↔ ∃ d e, (look3 idx p d e).isSome = true := by
  constructor
  · intro hs
    cases hp : dlookup idx p with
    | none => rw [hp] at hs; simp at hs
    | some dm =>
      obtain ⟨hknd, hmem⟩ := h
      obtain ⟨hdmne, hdmnd, hdmem⟩ := hmem _ (mem_of_lookup hp)
      cases hdm : dm with
      | nil => exact absurd hdm hdmne
      | cons de rest =>
        obtain ⟨hemne, hemnd, hetne⟩ := hdmem de (hdm ▸ List.mem_cons_self _ _)
        cases hde : de.2 with
        | nil => exact absurd hde hemne
        | cons et rest2 =>
          refine ⟨de.1, et.1, ?_⟩
          unfold look3
          rw [hp, Option.some_bind, hdm, dlookup_cons, if_pos rfl, Option.some_bind,
            hde, dlookup_cons, if_pos rfl]
          rfl
  · rintro ⟨d, e, hs⟩
    unfold look3 at hs
    cases hp : dlookup idx p with
    | none => rw [hp] at hs; simp at hs
    | some dm => simp

theorem lvl2_iff_leaf {idx : LIndex} {p : Int} {d : String} (h : WFIndex idx) :
    lvl2 idx p d = true ↔ ∃ e, (look3 idx p d e).isSome = true := by
  constructor
  · intro hs
    cases hp : dlookup idx p with
    | none => rw [lvl2, hp] at hs; simp at hs
    | some dm =>
      rw [lvl2, hp] at hs
      simp at hs
      cases hd : dlookup dm d with
      | none => rw [hd] at hs; simp at hs
      | some em =>
        obtain ⟨hknd, hmem⟩ := h
        obtain ⟨hdmne, hdmnd, hdmem⟩ := hmem _ (mem_of_lookup hp)
        obtain ⟨hemne, hemnd, hetne⟩ := hdmem _ (mem_of_lookup hd)
        cases hem : em with
        | nil => exact absurd hem hemne
        | cons et rest =>
          refine ⟨et.1, ?_⟩
          unfold look3
          rw [hp, Option.some_bind, hd, Option.some_bind, hem, dlookup_cons, if_pos rfl]
          rfl
  · rintro ⟨e, hs⟩
    unfold look3 at hs
    cases hp : dlookup idx p with
    | none => rw [hp] at hs; simp at hs
    | some dm =>
      rw [hp, Option.some_bind] at hs
      cases hd : dlookup dm d with
      | none => rw [hd] at hs; simp at hs
      | some em => rw [lvl2, hp]; simp [hd]

theorem sameIdx_of_leaf {x y : LIndex} (hX : WFIndex x) (hY : WFIndex y)
    (h : ∀ p d e, look3 x p d e = look3 y p d e) : sameIdx x y := by
  refine ⟨?_, ?_, h⟩
  · intro p
    apply bool_eq_of_iff
    rw [isSome_dlookup_iff_leaf hX, isSome_dlookup_iff_leaf hY]
    constructor
    · rintro ⟨d, e, hs⟩
      refine ⟨d, e, ?_⟩
      rw [h p d e] at hs
      exact hs
    · rintro ⟨d, e, hs⟩
      refine ⟨d, e, ?_⟩
      rw [h p d e]
      exact hs
  · intro p d
    apply bool_eq_of_iff
    rw [lvl2_iff_leaf hX, lvl2_iff_leaf hY]
    constructor
    · rintro ⟨e, hs⟩
      refine ⟨e, ?_⟩
      rw [h p d e] at hs
      exact hs
    · rintro ⟨e, hs⟩
      refine ⟨e, ?_⟩
      rw [h p d e]
      exact hs

theorem dlookup_dassign_self {κ β : Type} [DecidableEq κ] (l : List (κ × β)) (k : κ) (v : β) :
    dlookup (dassign l k v) k = some v := by
  unfold dassign
  split
  · next hs => exact dlookup_dset_self _ (dlookup_isSome_iff.mp hs)
  · next hs =>
    have hn : dlookup l k = none := by
      cases ho : dlookup l k with
      | none => rfl
      | some w => rw [ho] at hs; simp at hs
    rw [dlookup_append_of_none _ hn, dlookup_cons]
    simp

theorem removeGlobals_nil (m : String) : removeGlobals [] m = [] := rfl

theorem removeGlobals_append (g₁ g₂ : GAC) (m : String) :
    removeGlobals (g₁ ++ g₂) m = removeGlobals g₁ m ++ removeGlobals g₂ m :=
  List.map_append _ _ _

theorem dlookup_removeGlobals (g : GAC) (m : String) (k : String) :
    dlookup (removeGlobals g m) k
      = (dlookup g k).map (fun l => l.filter (fun c => c.module_name != m)) := by
  induction g with
  | nil => rfl
  | cons hd tl ih =>
    simp only [removeGlobals, List.map_cons]
    rw [dlookup_cons, dlookup_cons]
    split
    · next he => simp
    · next he => exact ih

theorem removeGlobals_dset (g : GAC) (k : String) (v : List AdminCmd) (m : String) :
    removeGlobals (dset g k v) m
      = dset (removeGlobals g m) k (v.filter (fun c => c.module_name != m)) := by
  induction g with
  | nil => rfl
  | cons hd tl ih =>
    rw [dset]
    split
    · next he =>
      simp only [removeGlobals, List.map_cons]
      rw [dset]
      simp only [he, if_pos]
    · next he =>
      simp only [removeGlobals, List.map_cons]
      rw [dset, if_neg he]
      simp only [List.cons.injEq, true_and]
      exact ih

theorem registerGlobals_nil (g : GAC) (m : String) : registerGlobals g [] m = g := rfl

theorem registerGlobals_cons (g : GAC) (kv : String × AdminCmd)
    (rest : List (String × AdminCmd)) (m : String) :
    registerGlobals g (kv :: rest) m =
      registerGlobals
        (match dlookup g kv.1 with
          | none => g ++ [(kv.1, [{ kv.2 with module_name := m }])]
          | some l => dset g kv.1 (l ++ [{ kv.2 with module_name := m }])) rest m := rfl

theorem removeGlobals_registerGlobals (g : GAC) (cmds : List (String × AdminCmd))
    (m : String) :
    ∃ pads : GAC, (∀ q ∈ pads, q.2 = []) ∧
      removeGlobals (registerGlobals g cmds m) m = removeGlobals g m ++ pads := by
  induction cmds generalizing g with
  | nil => exact ⟨[], by simp, by simp [registerGlobals_nil]⟩
  | cons kv rest ih =>
    rw [registerGlobals_cons]
    cases hk : dlookup g kv.1 with
    | none =>
      obtain ⟨pads, hpads, heq⟩ := ih (g ++ [(kv.1, [{ kv.2 with module_name := m }])])
      refine ⟨(kv.1, []) :: pads, ?_, ?_⟩
      · intro q hq
        rcases List.mem_cons.mp hq with h | h
        · rw [h]
        · exact hpads q h
      · rw [heq, removeGlobals_append]
        simp [removeGlobals]
    | some l =>
      obtain ⟨pads, hpads, heq⟩ := ih (dset g kv.1 (l ++ [{ kv.2 with module_name := m }]))
      refine ⟨pads, hpads, ?_⟩
      rw [heq, removeGlobals_dset]
      have hfl : (l ++ [{ kv.2 with module_name := m }]).filter
          (fun c => c.module_name != m) = l.filter (fun c => c.module_name != m) := by
        rw [List.filter_append]
        simp
      rw [hfl]
      have hlk : dlookup (removeGlobals g m) kv.1
          = some (l.filter (fun c => c.module_name != m)) := by
        rw [dlookup_removeGlobals, hk]
        rfl
      rw [dset_eq_of_lookup hlk]

theorem removeGlobals_eq_self {g : GAC} {m : String}
    (h : ∀ kv ∈ g, ∀ c ∈ kv.2, c.module_name ≠ m) : removeGlobals g m = g := by
  induction g with
  | nil => rfl
  | cons hd tl ih =>
    simp only [removeGlobals, List.map_cons]
    have h1 : hd.2.filter (fun c => c.module_name != m) = hd.2 :=
      List.filter_eq_self.mpr (fun c hc => by
        simpa using h hd (List.mem_cons_self _ _) c hc)
    have h2 : removeGlobals tl m = tl :=
      ih (fun kv hkv c hc => h kv (List.mem_cons_of_mem _ hkv) c hc)
    rw [h1]
    rw [show List.map
        (fun kv : String × List AdminCmd =>
          (kv.1, kv.2.filter fun c => c.module_name != m)) tl
      = removeGlobals tl m from rfl, h2, Prod.mk.eta]

theorem dropEmptyVals_append {κ β : Type} (l₁ l₂ : List (κ × List β)) :
    dropEmptyVals (l₁ ++ l₂) = dropEmptyVals l₁ ++ dropEmptyVals l₂ := by
  simp [dropEmptyVals]

theorem dropEmptyVals_eq_self {κ β : Type} {g : List (κ × List β)}
    (h : ∀ kv ∈ g, kv.2 ≠ []) : dropEmptyVals g = g :=
  List.filter_eq_self.mpr (fun kv hkv => by
    simpa [List.isEmpty_iff] using h kv hkv)

theorem dropEmptyVals_all_empty {κ β : Type} {pads : List (κ × List β)}
    (h : ∀ q ∈ pads, q.2 = []) : dropEmptyVals pads = [] :=
  List.filter_eq_nil_iff.mpr (fun kv hkv => by
    simp [List.isEmpty_iff, h kv hkv])

theorem gac_roundtrip (g : GAC) (cmds : List (String × AdminCmd)) (m : String)
    (hfresh : ∀ kv ∈ g, ∀ c ∈ kv.2, c.module_name ≠ m)
    (hne : ∀ kv ∈ g, kv.2 ≠ []) :
    dropEmptyVals (removeGlobals (registerGlobals g cmds m) m) = g := by
  obtain ⟨pads, hp, heq⟩ := removeGlobals_registerGlobals g cmds m
  rw [heq, dropEmptyVals_append, removeGlobals_eq_self hfresh,
    dropEmptyVals_eq_self hne, dropEmptyVals_all_empty hp, List.append_nil]

theorem load_ok_parts (stdCmds : List String) (ident : String) (m : ModuleData) (s : RegState)
    (hname : dlookup s.modules m.name = none)
    (hstd : ∀ n ∈ m.standardAdminNames, n ∈ stdCmds) :
    (load stdCmds ident (some m) s).1 = .ok ∧
    (load stdCmds ident (some m) s).2.whole_modules = dassign s.whole_modules ident [m.name] ∧
    (load stdCmds ident (some m) s).2.modules = dassign s.modules m.name m ∧
    (load stdCmds ident (some m) s).2.listeners
      = addAll (flatSeq m.events dirsLoad) s.listeners ∧
    (load stdCmds ident (some m) s).2.global_admin_commands
      = registerGlobals s.global_admin_commands m.globalAdminCmds m.name := by
  have hfind : List.find? (fun n => !decide (n ∈ stdCmds)) m.standardAdminNames = none := by
    apply List.find?_eq_none.mpr
    intro n hn
    simp [hstd n hn]
  simp [load, instantiate, hname, hfind]

theorem unload_single_parts (ident : String) (s1 : RegState) (m : ModuleData)
    (hw : dlookup s1.whole_modules ident = some [m.name])
    (hm : dlookup s1.modules m.name = some m) :
    (unload ident s1).1 = true ∧
    (unload ident s1).2.listeners = remAll (flatSeq m.events dirsUnload) s1.listeners ∧
    (unload ident s1).2.global_admin_commands
      = removeGlobals s1.global_admin_commands m.name ∧
    (unload ident s1).2.modules = dremove s1.modules m.name ∧
    (unload ident s1).2.whole_modules = dremove s1.whole_modules ident := by
  simp [unload, hw, hm]

/--
C1 (amended): for every registry state and module that loads successfully
(fresh name, known standard admin commands, well-formed listener index,
fresh listener tuples, no duplicate registrations, no global admin entries
already owned by the module, no empty global lists), `unload` after `load`
restores the listener index to exactly its pre-load key structure and leaf
lists, and restores the global admin command table **up to leftover
command-name keys mapping to empty lists**: dropping the emptied keys
yields exactly the pre-load table.  (The original claim's "no command-name
keys mapping to empty lists" part is false — see the counterexample —
because `Modules.unload` removes handlers from `global_admin_commands`
without ever deleting the keys.)
-/
theorem C1_amended_roundtrip (stdCmds : List String) (ident : String) (m : ModuleData)
    (s : RegState)
    (hname : dlookup s.modules m.name = none)
    (hstd : ∀ n ∈ m.standardAdminNames, n ∈ stdCmds)
    (hwf : WFIndex s.listeners)
    (hfresh : ∀ x ∈ flatSeq m.events dirsLoad,
      x.2.2.2 ∉ (look3 s.listeners x.1 x.2.1 x.2.2.1).getD [])
    (hnodup : (flatSeq m.events dirsLoad).Nodup)
    (hgfresh : ∀ kv ∈ s.global_admin_commands, ∀ c ∈ kv.2, c.module_name ≠ m.name)
    (hgne : ∀ kv ∈ s.global_admin_commands, kv.2 ≠ []) :
    (load stdCmds ident (some m) s).1 = .ok ∧
    (unload ident (load stdCmds ident (some m) s).2).1 = true ∧
    sameIdx (unload ident (load stdCmds ident (some m) s).2).2.listeners s.listeners ∧
    dropEmptyVals (unload ident (load stdCmds ident (some m) s).2).2.global_admin_commands
      = s.global_admin_commands := by
  obtain ⟨hok, hwhole, hmods, hlist, hgac⟩ := load_ok_parts stdCmds ident m s hname hstd
  have hw : dlookup (load stdCmds ident (some m) s).2.whole_modules ident = some [m.name] := by
    rw [hwhole]; exact dlookup_dassign_self _ _ _
  have hm : dlookup (load stdCmds ident (some m) s).2.modules m.name = some m := by
    rw [hmods]; exact dlookup_dassign_self _ _ _
  obtain ⟨hu, hul, hug, hum, huw⟩ := unload_single_parts ident _ m hw hm
  refine ⟨hok, hu, ?_, ?_⟩
  · rw [hul, hlist]
    exact sameIdx_of_leaf (WF_remAll _ _ (WF_addAll _ _ hwf)) hwf
      (look3_roundtrip m.events s.listeners hwf hfresh hnodup)
  · rw [hug, hgac]
    exact gac_roundtrip _ _ _ hgfresh hgne

/--
C1 counterexample: loading a module that registers the global admin
command `g` and unloading it leaves `global_admin_commands` with the key
`g` mapped to the empty list, although the key was absent before the load;
this falsifies the claim's "no command-name keys mapping to empty lists".
-/
theorem C1_counterexample :
    (load ["x"] "id"
      (some { name := "M",
              globalAdminCmds := [("g", { call := 5, call_level := 10, bound := false,
                                          module_name := "" })],
              standardAdminNames := [],
              events := [("in", [("pubmsg", [(0, 7, true)])])],
              commands := [] })
      { whole_modules := [], modules := [], listeners := [], global_admin_commands := [] }).1
      = LoadResult.ok ∧
    (unload "id"
      (load ["x"] "id"
        (some { name := "M",
                globalAdminCmds := [("g", { call := 5, call_level := 10, bound := false,
                                            module_name := "" })],
                standardAdminNames := [],
                events := [("in", [("pubmsg", [(0, 7, true)])])],
                commands := [] })
        { whole_modules := [], modules := [], listeners := [],
          global_admin_commands := [] }).2).2.global_admin_commands
      = [("g", [])] := by
  decide

/-- Witness for C1: the amended round trip applied to a concrete registry
with one pre-existing listener and a module with one listener and one
global admin command. -/
theorem C1_witness :
    dlookup ({ whole_modules := [], modules := [],
               listeners := [(5, [("out", [("x", [(9, false)])])])],
               global_admin_commands := [] : RegState }).modules "M" = none ∧
    WFIndex ({ whole_modules := [], modules := [],
               listeners := [(5, [("out", [("x", [(9, false)])])])],
               global_admin_commands := [] : RegState }).listeners ∧
    ((load ["x"] "id"
      (some { name := "M",
              globalAdminCmds := [("g", { call := 5, call_level := 10, bound := false,
                                          module_name := "" })],
              standardAdminNames := ["x"],
              events := [("in", [("pubmsg", [(0, 7, true)])])],
              commands := [] })
      { whole_modules := [], modules := [],
        listeners := [(5, [("out", [("x", [(9, false)])])])],
        global_admin_commands := [] }).1 = .ok ∧
    (unload "id" (load ["x"] "id"
      (some { name := "M",
              globalAdminCmds := [("g", { call := 5, call_level := 10, bound := false,
                                          module_name := "" })],
              standardAdminNames := ["x"],
              events := [("in", [("pubmsg", [(0, 7, true)])])],
              commands := [] })
      { whole_modules := [], modules := [],
        listeners := [(5, [("out", [("x", [(9, false)])])])],
        global_admin_commands := [] }).2).1 = true ∧
    sameIdx (unload "id" (load ["x"] "id"
      (some { name := "M",
              globalAdminCmds := [("g", { call := 5, call_level := 10, bound := false,
                                          module_name := "" })],
              standardAdminNames := ["x"],
              events := [("in", [("pubmsg", [(0, 7, true)])])],
              commands := [] })
      { whole_modules := [], modules := [],
        listeners := [(5, [("out", [("x", [(9, false)])])])],
        global_admin_commands := [] }).2).2.listeners
      [(5, [("out", [("x", [(9, false)])])])] ∧
    dropEmptyVals (unload "id" (load ["x"] "id"
      (some { name := "M",
              globalAdminCmds := [("g", { call := 5, call_level := 10, bound := false,
                                          module_name := "" })],
              standardAdminNames := ["x"],
              events := [("in", [("pubmsg", [(0, 7, true)])])],
              commands := [] })
      { whole_modules := [], modules := [],
        listeners := [(5, [("out", [("x", [(9, false)])])])],
        global_admin_commands := [] }).2).2.global_admin_commands = []) :=
  ⟨by decide, by decide,
    C1_amended_roundtrip ["x"] "id" _ _ (by decide) (by decide) (by decide) (by decide)
      (by decide) (by decide) (by decide)⟩

/--
C2 (amended): when `load` fails because no module was discovered or because
the discovered module's name collides with an already-loaded module, the
loaded-module set, the listener index and the identifier map are exactly
as before the call; the global admin command table, however, already
contains whatever global admin commands the discovered module's
constructor registered (`Module.__init__` runs before the duplicate
check), so it is unchanged only when the discovered module declares no
global admin commands.  (The original claim's "the global admin command
table is exactly as before" is false — see the counterexample.)
-/
theorem C2_failed_load_frame (stdCmds : List String) (ident : String)
    (disc : Option ModuleData) (s : RegState)
    (h : (load stdCmds ident disc s).1 = .notFound
      ∨ (load stdCmds ident disc s).1 = .dupName) :
    (load stdCmds ident disc s).2.modules = s.modules ∧
    (load stdCmds ident disc s).2.listeners = s.listeners ∧
    (load stdCmds ident disc s).2.whole_modules = s.whole_modules ∧
    (load stdCmds ident disc s).2.global_admin_commands =
      (match disc with
        | none => s.global_admin_commands
        | some m => registerGlobals s.global_admin_commands m.globalAdminCmds m.name) ∧
    (∀ m, disc = some m → m.globalAdminCmds = [] → (load stdCmds ident disc s).2 = s) := by
  cases disc with
  | none =>
    refine ⟨rfl, rfl, rfl, rfl, ?_⟩
    intro m hm
    exact absurd hm (by simp)
  | some m =>
    by_cases hdup : (dlookup s.modules m.name).isSome
    · have hres : load stdCmds ident (some m) s = (.dupName, instantiate s m) := by
        simp [load, instantiate, hdup]
      rw [hres]
      refine ⟨rfl, rfl, rfl, rfl, ?_⟩
      intro m' hm' hg
      have hmm : m = m' := by injection hm'
      subst hmm
      simp [instantiate, hg, registerGlobals_nil]
    · cases hfind : List.find? (fun n => !decide (n ∈ stdCmds)) m.standardAdminNames with
      | some bad =>
        have hres : (load stdCmds ident (some m) s).1 = .exnUnknownStd m.name bad := by
          simp [load, instantiate, hdup, hfind]
        rcases h with h | h <;> rw [hres] at h <;> exact absurd h (by simp)
      | none =>
        have hres : (load stdCmds ident (some m) s).1 = .ok := by
          simp [load, instantiate, hdup, hfind]
        rcases h with h | h <;> rw [hres] at h <;> exact absurd h (by simp)

/--
C2 counterexample: a discovered module whose name collides with a loaded
one but which declares a global admin command makes `load` fail with
`dupName` while having already appended that command to the global admin
table — the failure is not atomic for the global table.
-/
theorem C2_counterexample :
    load [] "id"
      (some { name := "M",
              globalAdminCmds := [("g", { call := 5, call_level := 10, bound := false,
                                          module_name := "" })],
              standardAdminNames := [], events := [], commands := [] })
      { whole_modules := [],
        modules := [("M", { name := "M", globalAdminCmds := [], standardAdminNames := [],
                            events := [], commands := [] })],
        listeners := [], global_admin_commands := [] }
    = (LoadResult.dupName,
       { whole_modules := [],
         modules := [("M", { name := "M", globalAdminCmds := [], standardAdminNames := [],
                             events := [], commands := [] })],
         listeners := [],
         global_admin_commands := [("g", [{ call := 5, call_level := 10, bound := false,
                                            module_name := "M" }])] }) ∧
    ([("g", [{ call := 5, call_level := 10, bound := false, module_name := "M" }])] : GAC)
      ≠ [] := by
  decide

/-- Witness for C2: the frame conditions applied to a concrete collision
whose discovered module has no global admin commands, yielding an entirely
unchanged state. -/
theorem C2_witness :
    ((load [] "id"
      (some { name := "N", globalAdminCmds := [], standardAdminNames := [],
              events := [], commands := [] })
      { whole_modules := [],
        modules := [("N", { name := "N", globalAdminCmds := [], standardAdminNames := [],
                            events := [], commands := [] })],
        listeners := [], global_admin_commands := [] }).1 = LoadResult.dupName) ∧
    ((load [] "id"
      (some { name := "N", globalAdminCmds := [], standardAdminNames := [],
              events := [], commands := [] })
      { whole_modules := [],
        modules := [("N", { name := "N", globalAdminCmds := [], standardAdminNames := [],
                            events := [], commands := [] })],
        listeners := [], global_admin_commands := [] }).2.modules
      = [("N", { name := "N", globalAdminCmds := [], standardAdminNames := [],
                 events := [], commands := [] })] ∧
    (load [] "id"
      (some { name := "N", globalAdminCmds := [], standardAdminNames := [],
              events := [], commands := [] })
      { whole_modules := [],
        modules := [("N", { name := "N", globalAdminCmds := [], standardAdminNames := [],
                            events := [], commands := [] })],
        listeners := [], global_admin_commands := [] }).2.listeners = [] ∧
    (load [] "id"
      (some { name := "N", globalAdminCmds := [], standardAdminNames := [],
              events := [], commands := [] })
      { whole_modules := [],
        modules := [("N", { name := "N", globalAdminCmds := [], standardAdminNames := [],
                            events := [], commands := [] })],
        listeners := [], global_admin_commands := [] }).2.whole_modules = [] ∧
    (load [] "id"
      (some { name := "N", globalAdminCmds := [], standardAdminNames := [],
              events := [], commands := [] })
      { whole_modules := [],
        modules := [("N", { name := "N", globalAdminCmds := [], standardAdminNames := [],
                            events := [], commands := [] })],
        listeners := [], global_admin_commands := [] }).2.global_admin_commands
      = registerGlobals [] [] "N" ∧
    ∀ m, (some { name := "N", globalAdminCmds := [], standardAdminNames := [],
                 events := [], commands := [] : ModuleData }) = some m →
      m.globalAdminCmds = [] →
      (load [] "id"
        (some { name := "N", globalAdminCmds := [], standardAdminNames := [],
                events := [], commands := [] })
        { whole_modules := [],
          modules := [("N", { name := "N", globalAdminCmds := [], standardAdminNames := [],
                              events := [], commands := [] })],
          listeners := [], global_admin_commands := [] }).2
        = { whole_modules := [],
            modules := [("N", { name := "N", globalAdminCmds := [], standardAdminNames := [],
                                events := [], commands := [] })],
            listeners := [], global_admin_commands := [] }) :=
  ⟨by decide,
    by
      have h := C2_failed_load_frame [] "id"
        (some { name := "N", globalAdminCmds := [], standardAdminNames := [],
                events := [], commands := [] })
        { whole_modules := [],
          modules := [("N", { name := "N", globalAdminCmds := [], standardAdminNames := [],
                              events := [], commands := [] })],
          listeners := [], global_admin_commands := [] }
        (Or.inr (by decide))
      exact ⟨h.1, h.2.1, h.2.2.1, h.2.2.2.1, h.2.2.2.2⟩⟩

/--
C9 (amended): (i) a declared standard-admin-command name that is not in the
registry of reusable implementations makes `load` raise
`exnUnknownStd`, naming the offending module and the unknown name, with
listener registration aborted — but the module is left **partially
registered**: it is present in `modules` and `whole_modules` (and its
constructor's global admin registrations persist), contradicting the
original claim's "no partial registration".  (ii) An unrecognized
privilege-level token is **not** a load-time error at all:
`Modules.return_command_dict` keeps the unknown token verbatim on the
produced descriptor.
-/
theorem C9_loadtime_errors :
    (∀ (stdCmds : List String) (ident : String) (m : ModuleData) (s : RegState)
        (mn bad : String),
      (load stdCmds ident (some m) s).1 = .exnUnknownStd mn bad →
      mn = m.name ∧ bad ∈ m.standardAdminNames ∧ bad ∉ stdCmds ∧
      (load stdCmds ident (some m) s).2.listeners = s.listeners ∧
      dlookup (load stdCmds ident (some m) s).2.modules m.name = some m ∧
      dlookup (load stdCmds ident (some m) s).2.whole_modules ident = some [m.name]) ∧
    (∀ (info : CmdInfo) (tok n0 : String) (rest : List String),
      info.name = n0 :: rest → info.call_level = some (.inl tok) →
      dlookup user_levels tok = none →
      ∃ c, dlookup (return_command_dict info) n0 = some c ∧ c.call_level = .inl tok) := by
  constructor
  · intro stdCmds ident m s mn bad h
    by_cases hdup : (dlookup s.modules m.name).isSome
    · have hres : (load stdCmds ident (some m) s).1 = .dupName := by
        simp [load, instantiate, hdup]
      rw [hres] at h
      exact absurd h (by simp)
    · cases hfind : List.find? (fun n => !decide (n ∈ stdCmds)) m.standardAdminNames with
      | none =>
        have hres : (load stdCmds ident (some m) s).1 = .ok := by
          simp [load, instantiate, hdup, hfind]
        rw [hres] at h
        exact absurd h (by simp)
      | some bad' =>
        have hres : load stdCmds ident (some m) s =
            (.exnUnknownStd m.name bad',
             { whole_modules := dassign s.whole_modules ident [m.name],
               modules := dassign s.modules m.name m,
               listeners := s.listeners,
               global_admin_commands :=
                 registerGlobals s.global_admin_commands m.globalAdminCmds m.name }) := by
          simp [load, instantiate, hdup, hfind]
        rw [hres] at h
        simp only [] at h
        injection h with h1 h2
        subst h1
        subst h2
        refine ⟨rfl, List.mem_of_find?_eq_some hfind, ?_, ?_, ?_, ?_⟩
        · have hp := List.find?_some hfind
          simpa using hp
        · rw [hres]
        · rw [hres]
          exact dlookup_dassign_self _ _ _
        · rw [hres]
          exact dlookup_dassign_self _ _ _
  · intro info tok n0 rest hn hcl htok
    have hlev : resolveLevel (Option.getD info.call_level (.inr USER_LEVEL_NOPRIVS))
        = .inl tok := by
      rw [hcl]
      simp [resolveLevel, htok]
    have hL : dlookup (return_command_dict info) n0 =
        some { call := info.call, description := info.description,
               call_level := .inl tok,
               view_level := resolveLevel (info.view_level.getD (.inl tok)),
               channel_whitelist := info.channel_whitelist, user_whitelist := [],
               channel_mode_restriction := info.channel_mode_restriction,
               bound := info.bound.getD true, base_name := n0, aliasOf := none } := by
      simp [return_command_dict, hn, hlev, dlookup_cons]
    exact ⟨_, hL, rfl⟩

/--
C9 counterexample: a module declaring the unknown standard admin command
`nope` makes `load` raise, but the module is left registered in `modules`
— the claim's "no partial registration" fails.
-/
theorem C9_counterexample :
    (load [] "id"
      (some { name := "M", globalAdminCmds := [], standardAdminNames := ["nope"],
              events := [], commands := [] })
      { whole_modules := [], modules := [], listeners := [],
        global_admin_commands := [] }).1 = LoadResult.exnUnknownStd "M" "nope" ∧
    dlookup (load [] "id"
      (some { name := "M", globalAdminCmds := [], standardAdminNames := ["nope"],
              events := [], commands := [] })
      { whole_modules := [], modules := [], listeners := [],
        global_admin_commands := [] }).2.modules "M"
      = some { name := "M", globalAdminCmds := [], standardAdminNames := ["nope"],
               events := [], commands := [] } := by
  decide

/-- Witness for C9: both amended parts applied to concrete inputs — the
raising load with a concrete module, and `return_command_dict` keeping the
unknown token `wizard` verbatim. -/
theorem C9_witness :
    ((load [] "id"
      (some { name := "M", globalAdminCmds := [], standardAdminNames := ["nope"],
              events := [], commands := [] })
      { whole_modules := [], modules := [], listeners := [],
        global_admin_commands := [] }).1 = LoadResult.exnUnknownStd "M" "nope") ∧
    ("M" = "M" ∧ "nope" ∈ ["nope"] ∧ "nope" ∉ ([] : List String) ∧
      (load [] "id"
        (some { name := "M", globalAdminCmds := [], standardAdminNames := ["nope"],
                events := [], commands := [] })
        { whole_modules := [], modules := [], listeners := [],
          global_admin_commands := [] }).2.listeners = [] ∧
      dlookup (load [] "id"
        (some { name := "M", globalAdminCmds := [], standardAdminNames := ["nope"],
                events := [], commands := [] })
        { whole_modules := [], modules := [], listeners := [],
          global_admin_commands := [] }).2.modules "M"
        = some { name := "M", globalAdminCmds := [], standardAdminNames := ["nope"],
                 events := [], commands := [] } ∧
      dlookup (load [] "id"
        (some { name := "M", globalAdminCmds := [], standardAdminNames := ["nope"],
                events := [], commands := [] })
        { whole_modules := [], modules := [], listeners := [],
          global_admin_commands := [] }).2.whole_modules "id" = some ["M"]) ∧
    (∃ c, dlookup (return_command_dict
        { name := ["roll"], call := 3, description := [],
          call_level := some (.inl "wizard"), view_level := none,
          channel_mode_restriction := none, channel_whitelist := [],
          bound := none }) "roll" = some c ∧ c.call_level = .inl "wizard") :=
  ⟨by decide,
    C9_loadtime_errors.1 [] "id"
      { name := "M", globalAdminCmds := [], standardAdminNames := ["nope"],
        events := [], commands := [] }
      { whole_modules := [], modules := [], listeners := [],
        global_admin_commands := [] } "M" "nope" (by decide),
    C9_loadtime_errors.2
      { name := ["roll"], call := 3, description := [],
        call_level := some (.inl "wizard"), view_level := none,
        channel_mode_restriction := none, channel_whitelist := [],
        bound := none } "wizard" "roll" [] rfl rfl (by decide)⟩

/-!
## Sorting lemmas (`sorted(...)` over priorities and module names)
-/

theorem foldl_preserves {α β : Type} (P : α → Prop) (f : α → β → α)
    (hf : ∀ a b, P a → P (f a b)) :
    ∀ (l : List β) (a : α), P a → P (l.foldl f a) := by
  intro l
  induction l with
  | nil => intro a h; exact h
  | cons b l ih => intro a h; exact ih (f a b) (hf a b h)

theorem perm_insertSorted {α : Type} (le : α → α → Bool) (x : α) (l : List α) :
    (insertSorted le x l).Perm (x :: l) := by
  induction l with
  | nil => simp [insertSorted]
  | cons y r ih =>
    simp only [insertSorted]
    split
    · exact List.Perm.refl _
    · exact (ih.cons y).trans (List.Perm.swap x y r)

theorem perm_sortByLe {α : Type} (le : α → α → Bool) (l : List α) :
    (sortByLe le l).Perm l := by
  induction l with
  | nil => exact List.Perm.refl _
  | cons x r ih => exact (perm_insertSorted le x (sortByLe le r)).trans (ih.cons x)

theorem pairwise_insertSorted {α : Type} (le : α → α → Bool)
    (htot : ∀ a b, le a b = true ∨ le b a = true)
    (htrans : ∀ a b c, le a b = true → le b c = true → le a c = true)
    (x : α) (l : List α) (h : l.Pairwise (fun a b => le a b = true)) :
    (insertSorted le x l).Pairwise (fun a b => le a b = true) := by
  induction l with
  | nil => simp [insertSorted]
  | cons y r ih =>
    rw [List.pairwise_cons] at h
    obtain ⟨hy, hr⟩ := h
    simp only [insertSorted]
    split
    · rename_i hxy
      rw [List.pairwise_cons]
      refine ⟨?_, List.Pairwise.cons hy hr⟩
      intro z hz
      rcases List.mem_cons.mp hz with h1 | h2
      · exact h1 ▸ hxy
      · exact htrans x y z hxy (hy z h2)
    · rename_i hxy
      rw [List.pairwise_cons]
      refine ⟨?_, ih hr⟩
      intro z hz
      have hz' := (perm_insertSorted le x r).mem_iff.mp hz
      rcases List.mem_cons.mp hz' with h1 | h2
      · rw [h1]
        rcases htot x y with h3 | h3
        · exact absurd h3 hxy
        · exact h3
      · exact hy z h2

theorem pairwise_sortByLe {α : Type} (le : α → α → Bool)
    (htot : ∀ a b, le a b = true ∨ le b a = true)
    (htrans : ∀ a b c, le a b = true → le b c = true → le a c = true)
    (l : List α) :
    (sortByLe le l).Pairwise (fun a b => le a b = true) := by
  induction l with
  | nil => simp [sortByLe]
  | cons x r ih => exact pairwise_insertSorted le htot htrans x _ ih

theorem sortKeys_sorted (l : List Int) :
    (sortKeys l).Pairwise (fun a b => a ≤ b) := by
  have h := pairwise_sortByLe (fun a b : Int => decide (a ≤ b))
    (fun a b => by rcases le_total a b with h | h <;> simp [h])
    (fun a b c h1 h2 => by
      simp only [decide_eq_true_eq] at h1 h2 ⊢
      exact le_trans h1 h2) l
  exact h.imp (fun hab => of_decide_eq_true hab)

theorem sortKeys_perm (l : List Int) : (sortKeys l).Perm l :=
  perm_sortByLe _ l

/-!
## The inner dispatch loop (`runTuples`)
-/

theorem runTuples_nil (sem : Handler → Event → Option Event) (st : DState) :
    runTuples sem [] st = st := rfl

theorem runTuples_cons (sem : Handler → Event → Option Event) (hi : Handler × Bool)
    (ts : TList) (st : DState) :
    runTuples sem (hi :: ts) st = runTuples sem ts (runTuples sem [hi] st) := rfl

theorem runTuples_append (sem : Handler → Event → Option Event) (ts₁ ts₂ : TList)
    (st : DState) :
    runTuples sem (ts₁ ++ ts₂) st = runTuples sem ts₂ (runTuples sem ts₁ st) := by
  simp [runTuples, List.foldl_append]

theorem runTuples_single_skip (sem : Handler → Event → Option Event)
    (hi : Handler × Bool) (st : DState) (h : hi.1 ∈ st.called) :
    runTuples sem [hi] st = st := by
  simp [runTuples, h]

theorem runTuples_single_inline_some (sem : Handler → Event → Option Event)
    (hh : Handler) (st : DState) (e' : Event) (hm : hh ∉ st.called)
    (hs : sem hh st.ev = some e') :
    runTuples sem [(hh, true)] st =
      { ev := e', called := st.called ++ [hh], spawned := st.spawned } := by
  simp [runTuples, hm, hs]

theorem runTuples_single_inline_none (sem : Handler → Event → Option Event)
    (hh : Handler) (st : DState) (hm : hh ∉ st.called)
    (hs : sem hh st.ev = none) :
    runTuples sem [(hh, true)] st =
      { ev := st.ev, called := st.called ++ [hh], spawned := st.spawned } := by
  simp [runTuples, hm, hs]

theorem runTuples_single_thread (sem : Handler → Event → Option Event)
    (hh : Handler) (st : DState) (hm : hh ∉ st.called) :
    runTuples sem [(hh, false)] st =
      { ev := st.ev, called := st.called ++ [hh],
        spawned := st.spawned ++ [(hh, st.ev)] } := by
  simp [runTuples, hm]

theorem runTuples_single_called_nodup (sem : Handler → Event → Option Event)
    (hi : Handler × Bool) (st : DState) (h : st.called.Nodup) :
    (runTuples sem [hi] st).called.Nodup := by
  by_cases hm : hi.1 ∈ st.called
  · rw [runTuples_single_skip sem hi st hm]
    exact h
  · rcases hi with ⟨hh, b⟩
    cases b with
    | false =>
      rw [runTuples_single_thread sem hh st hm]
      simp [List.nodup_append, h, hm]
    | true =>
      cases hs : sem hh st.ev with
      | none =>
        rw [runTuples_single_inline_none sem hh st hm hs]
        simp [List.nodup_append, h, hm]
      | some e' =>
        rw [runTuples_single_inline_some sem hh st e' hm hs]
        simp [List.nodup_append, h, hm]

theorem runTuples_called_nodup (sem : Handler → Event → Option Event) (ts : TList) :
    ∀ st : DState, st.called.Nodup → (runTuples sem ts st).called.Nodup := by
  induction ts with
  | nil => intro st h; exact h
  | cons hi ts ih =>
    intro st h
    rw [runTuples_cons]
    exact ih _ (runTuples_single_called_nodup sem hi st h)

/-- `runPriority` walks, in order, directions `both` then the current
direction and, within each direction, event types `all` then the verb
current at that moment. -/
theorem runPriority_unfold (sem : Handler → Event → Option Event) (idx : LIndex)
    (p : Int) (st : DState) :
    runPriority sem idx p st =
      (let stA := runTuples sem (lookupTuples idx p "both" "all") st
       let stB := runTuples sem (lookupTuples idx p "both" st.ev.verb) stA
       let stC := runTuples sem (lookupTuples idx p st.ev.direction "all") stB
       runTuples sem (lookupTuples idx p st.ev.direction stB.ev.verb) stC) := rfl

theorem runPriority_called_nodup (sem : Handler → Event → Option Event) (idx : LIndex)
    (p : Int) (st : DState) (h : st.called.Nodup) :
    (runPriority sem idx p st).called.Nodup := by
  rw [runPriority_unfold]
  exact runTuples_called_nodup sem _ _
    (runTuples_called_nodup sem _ _
      (runTuples_called_nodup sem _ _
        (runTuples_called_nodup sem _ _ h)))

theorem dispatchAll_called_nodup (sem : Handler → Event → Option Event) (idx : LIndex)
    (e : Event) : (dispatchAll sem idx e).called.Nodup := by
  exact foldl_preserves (fun st : DState => st.called.Nodup)
    (fun st p => runPriority sem idx p st)
    (fun st p hp => runPriority_called_nodup sem idx p st hp)
    (sortKeys (keysOf idx)) { ev := e, called := [], spawned := [] }
    List.nodup_nil

/--
C3: the listener-dispatch loop of `Modules.handle` visits priorities in
ascending numeric order (`sorted(self.listeners.keys())` sorts ascending
and is a permutation of the key set); within one priority it checks
direction `both` then the event's own direction, and inside each of those
event type `all` then the event's own verb; and across the whole dispatch
of one event a handler is invoked at most once — the `called` list never
repeats a handler, deduplicating by handler identity alone, irrespective
of the `inline` flag it was registered with.
-/
theorem C3_dispatch_order_dedup :
    (∀ l : List Int,
      (sortKeys l).Pairwise (fun a b => a ≤ b) ∧ (sortKeys l).Perm l) ∧
    (∀ (sem : Handler → Event → Option Event) (idx : LIndex) (p : Int) (st : DState),
      runPriority sem idx p st =
        (let stA := runTuples sem (lookupTuples idx p "both" "all") st
         let stB := runTuples sem (lookupTuples idx p "both" st.ev.verb) stA
         let stC := runTuples sem (lookupTuples idx p st.ev.direction "all") stB
         runTuples sem (lookupTuples idx p st.ev.direction stB.ev.verb) stC)) ∧
    (∀ (sem : Handler → Event → Option Event) (idx : LIndex) (e : Event),
      (dispatchAll sem idx e).called.Nodup) :=
  ⟨fun l => ⟨sortKeys_sorted l, sortKeys_perm l⟩,
   runPriority_unfold,
   dispatchAll_called_nodup⟩

/--
C4: inline listeners run synchronously in dispatch order (the tuple list
is processed left to right, a prefix first); an inline listener returning
a replacement event installs it as the event seen by everything dispatched
after it, and returning `None` leaves the event unchanged; a non-inline
listener is recorded as a spawned thread with the current event and its
result never feeds back (the pipeline event is unchanged no matter what
the handler returns); the event the command router judges is the final
event of the dispatch loop.
-/
theorem C4_inline_pipeline :
    (∀ (sem : Handler → Event → Option Event) (ts₁ ts₂ : TList) (st : DState),
      runTuples sem (ts₁ ++ ts₂) st = runTuples sem ts₂ (runTuples sem ts₁ st)) ∧
    (∀ (sem : Handler → Event → Option Event) (hh : Handler) (st : DState) (e' : Event),
      hh ∉ st.called → sem hh st.ev = some e' →
      runTuples sem [(hh, true)] st =
        { ev := e', called := st.called ++ [hh], spawned := st.spawned }) ∧
    (∀ (sem : Handler → Event → Option Event) (hh : Handler) (st : DState),
      hh ∉ st.called → sem hh st.ev = none →
      runTuples sem [(hh, true)] st =
        { ev := st.ev, called := st.called ++ [hh], spawned := st.spawned }) ∧
    (∀ (sem : Handler → Event → Option Event) (hh : Handler) (st : DState),
      hh ∉ st.called →
      runTuples sem [(hh, false)] st =
        { ev := st.ev, called := st.called ++ [hh],
          spawned := st.spawned ++ [(hh, st.ev)] }) ∧
    (∀ (env : BusEnv) (idx : LIndex) (e : Event),
      (handle env idx e).finalEvent = (dispatchAll env.sem idx (attachAccount env e)).ev) :=
  ⟨runTuples_append,
   runTuples_single_inline_some,
   runTuples_single_inline_none,
   runTuples_single_thread,
   fun _ _ _ => rfl⟩

/-- Witness for C4 at concrete inputs: a replacing inline handler installs
`cEventSaw`, a `None`-returning inline handler leaves `cEvent` in place,
and a non-inline handler is spawned with the current event unchanged. -/
theorem C4_witness :
    (runTuples cSemSaw [(5, true)] cDState =
      { ev := cEventSaw, called := [5], spawned := [] }) ∧
    (runTuples cBusEnv.sem [(5, true)] cDState =
      { ev := cEvent, called := [5], spawned := [] }) ∧
    (runTuples cSemSaw [(5, false)] cDState =
      { ev := cEvent, called := [5], spawned := [(5, cEvent)] }) :=
  ⟨C4_inline_pipeline.2.1 cSemSaw 5 cDState cEventSaw (by decide) rfl,
   C4_inline_pipeline.2.2.1 cBusEnv.sem 5 cDState (by decide) rfl,
   C4_inline_pipeline.2.2.2.1 cSemSaw 5 cDState (by decide)⟩

/-!
## The bus around dispatch (`Modules.handle`)
-/

theorem attachAccount_verb (env : BusEnv) (e : Event) :
    (attachAccount env e).verb = e.verb := by
  unfold attachAccount
  split <;> rfl

theorem attachAccount_direction (env : BusEnv) (e : Event) :
    (attachAccount env e).direction = e.direction := by
  unfold attachAccount
  split <;> rfl

/--
C5 counterexample: `cIdx` holds one inline listener whose handler replaces
the event (message `saw`) exactly when the event it is given already
carries a `sourceAccount`.  Under `Modules.handle` the listener observes
the account (the fields are attached at entry, before dispatch), so the
final event is the replacement; under the claimed attach-after-dispatch
behaviour (`handleClaimC5`) the listener sees no account and the message
is unchanged.
-/
theorem C5_counterexample :
    (handle cBusEnv cIdx cEvent).finalEvent.message = "saw" ∧
    (handleClaimC5 cBusEnv cIdx cEvent).finalEvent.message = "!foo bar" :=
  ⟨rfl, rfl⟩

/--
C5 (amended): for inbound `privmsg`/`pubmsg` events `Modules.handle`
attaches `sourceAccount`/`sourceUserLevel` **before** listener dispatch —
a registered listener is handed the already-attached event, as part (ii)
shows for a single non-inline listener.  Part (i) is the half of the claim
the code does satisfy: the decision to invoke the command router is taken
on the (possibly inline-transformed) final event, and the admin-command
path is additionally taken for private messages only.
-/
theorem C5_attach_before_dispatch :
    (∀ (env : BusEnv) (idx : LIndex) (e : Event),
      (handle env idx e).routerInvoked =
        ((((handle env idx e).finalEvent.verb == "privmsg")
          || ((handle env idx e).finalEvent.verb == "pubmsg"))
          && ((handle env idx e).finalEvent.direction == "in")) ∧
      (handle env idx e).adminInvoked =
        (((handle env idx e).finalEvent.verb == "privmsg")
          && ((handle env idx e).finalEvent.direction == "in"))) ∧
    (∀ (env : BusEnv) (e : Event) (p : Int) (hh : Handler),
      e.direction ≠ "both" → e.verb ≠ "all" →
      (handle env (addListener [] p "both" "all" (hh, false)) e).spawned
        = [(hh, attachAccount env e)]) := by
  constructor
  · intro env idx e
    exact ⟨rfl, rfl⟩
  · intro env e p hh hd hv
    have hv1 : (attachAccount env e).verb = e.verb := attachAccount_verb env e
    have hd1 : (attachAccount env e).direction = e.direction := attachAccount_direction env e
    have h1 : lookupTuples (addListener [] p "both" "all" (hh, false)) p "both" "all"
        = [(hh, false)] := by
      rw [lookupTuples, look3_addListener_self]
      rfl
    have h2 : ∀ d' e', ¬ (d' = "both" ∧ e' = "all") →
        lookupTuples (addListener [] p "both" "all" (hh, false)) p d' e' = [] := by
      intro d' e' hne
      rw [lookupTuples, look3_addListener_other [] p "both" "all" (hh, false)
        (by intro hc; exact hne ⟨hc.2.1, hc.2.2⟩)]
      rfl
    show (dispatchAll env.sem (addListener [] p "both" "all" (hh, false))
      (attachAccount env e)).spawned = _
    have hstep : dispatchAll env.sem (addListener [] p "both" "all" (hh, false))
        (attachAccount env e) =
        runPriority env.sem (addListener [] p "both" "all" (hh, false)) p
          { ev := attachAccount env e, called := [], spawned := [] } := rfl
    rw [hstep, runPriority_unfold]
    simp only [h1]
    rw [runTuples_single_thread env.sem hh _ (by simp)]
    simp only [List.nil_append]
    rw [h2 "both" (attachAccount env e).verb (by rw [hv1]; simp [hv]),
      runTuples_nil,
      h2 (attachAccount env e).direction "all" (by rw [hd1]; simp [hd]),
      runTuples_nil,
      h2 (attachAccount env e).direction (attachAccount env e).verb
        (by rw [hd1]; simp [hd]),
      runTuples_nil]

/-- Witness for C5 at a concrete inbound public message and one non-inline
listener: the spawned thread receives the event with the account fields
already attached. -/
theorem C5_witness :
    (handle cBusEnv (addListener [] 0 "both" "all" (7, false)) cEvent).spawned
      = [(7, attachAccount cBusEnv cEvent)] :=
  C5_attach_before_dispatch.2 cBusEnv cEvent 0 7 (by decide) (by decide)

/-!
## Lexicographic order on module names
-/

theorem charsLe_total : ∀ x y : List Char, charsLe x y = true ∨ charsLe y x = true := by
  intro x
  induction x with
  | nil => intro y; left; rfl
  | cons a as ih =>
    intro y
    cases y with
    | nil => right; rfl
    | cons b bs =>
      by_cases h : a.toNat = b.toNat
      · simp only [charsLe, h, if_pos, if_true]
        rcases ih bs with h1 | h1
        · left; simpa [h] using h1
        · right; simpa [h.symm] using h1
      · rcases Nat.lt_or_ge a.toNat b.toNat with h1 | h1
        · left; simp [charsLe, h, h1]
        · right
          have h2 : b.toNat < a.toNat := lt_of_le_of_ne h1 (fun hc => h hc.symm)
          simp only [charsLe]
          rw [if_neg (fun hc : b.toNat = a.toNat => h hc.symm), decide_eq_true_eq]
          exact h2

theorem charsLe_trans : ∀ x y z : List Char,
    charsLe x y = true → charsLe y z = true → charsLe x z = true := by
  intro x
  induction x with
  | nil => intro y z _ _; rfl
  | cons a as ih =>
    intro y z hxy hyz
    cases y with
    | nil => exact absurd hxy (by simp [charsLe])
    | cons b bs =>
      cases z with
      | nil => exact absurd hyz (by simp [charsLe])
      | cons c cs =>
        simp only [charsLe] at hxy hyz ⊢
        by_cases h1 : a.toNat = b.toNat
        · by_cases h2 : b.toNat = c.toNat
          · have h3 : a.toNat = c.toNat := h1.trans h2
            rw [if_pos h1] at hxy
            rw [if_pos h2] at hyz
            rw [if_pos h3]
            exact ih bs cs hxy hyz
          · rw [if_neg h2] at hyz
            have hlt : b.toNat < c.toNat := of_decide_eq_true hyz
            have h3 : a.toNat < c.toNat := h1 ▸ hlt
            rw [if_neg (Nat.ne_of_lt h3), decide_eq_true_eq]
            exact h3
        · rw [if_neg h1] at hxy
          have hlt : a.toNat < b.toNat := of_decide_eq_true hxy
          by_cases h2 : b.toNat = c.toNat
          · have h3 : a.toNat < c.toNat := h2 ▸ hlt
            rw [if_neg (Nat.ne_of_lt h3), decide_eq_true_eq]
            exact h3
          · rw [if_neg h2] at hyz
            have hlt2 : b.toNat < c.toNat := of_decide_eq_true hyz
            have h3 : a.toNat < c.toNat := Nat.lt_trans hlt hlt2
            rw [if_neg (Nat.ne_of_lt h3), decide_eq_true_eq]
            exact h3

theorem strLe_total (a b : String) : strLe a b = true ∨ strLe b a = true :=
  charsLe_total a.data b.data

theorem strLe_trans (a b c : String) (h1 : strLe a b = true) (h2 : strLe b c = true) :
    strLe a c = true :=
  charsLe_trans a.data b.data c.data h1 h2

theorem sortStr_sorted (l : List String) :
    (sortStr l).Pairwise (fun a b => strLe a b = true) :=
  pairwise_sortByLe strLe strLe_total (fun a b c => strLe_trans a b c) l

theorem sortStr_perm (l : List String) : (sortStr l).Perm l :=
  perm_sortByLe strLe l

/-!
## First-occurrence deduplication by call identity
-/

theorem dedupH_nil (called : List Handler) : dedupH called [] = [] := rfl

theorem dedupH_cons (called : List Handler) (h : Handler) (r : List Handler) :
    dedupH called (h :: r) =
      if h ∈ called then dedupH called r else h :: dedupH (called ++ [h]) r := rfl

theorem dedupH_spec : ∀ (l called : List Handler),
    (dedupH called l).Nodup ∧ ∀ x ∈ dedupH called l, x ∉ called
  | [], called => by simp [dedupH]
  | h :: r, called => by
    rw [dedupH_cons]
    by_cases hmem : h ∈ called
    · rw [if_pos hmem]
      exact dedupH_spec r called
    · rw [if_neg hmem]
      obtain ⟨hnd, hdisj⟩ := dedupH_spec r (called ++ [h])
      constructor
      · rw [List.nodup_cons]
        refine ⟨fun hc => ?_, hnd⟩
        exact hdisj h hc (by simp)
      · intro x hx
        rcases List.mem_cons.mp hx with h1 | h2
        · rw [h1]; exact hmem
        · intro hc
          exact hdisj x h2 (by simp [hc])

/-!
## The routing loop of `Modules.handle_command`
-/

theorem mem_pairs_fst {names : List String} {cn : String} {x : String × String}
    (h : x ∈ names.flatMap (fun mn => [(mn, "*"), (mn, cn)])) : x.1 ∈ names := by
  rw [List.mem_flatMap] at h
  obtain ⟨a, ha, hx⟩ := h
  rcases List.mem_cons.mp hx with h1 | h1
  · rw [h1]; exact ha
  · rcases List.mem_cons.mp h1 with h2 | h2
    · rw [h2]; exact ha
    · exact absurd h2 (List.not_mem_nil x)

theorem pairs_nodup (names : List String) (cn : String) (hn : names.Nodup)
    (hcn : cn ≠ "*") :
    (names.flatMap (fun mn => [(mn, "*"), (mn, cn)])).Nodup := by
  induction names with
  | nil => simp
  | cons n rest ih =>
    rw [List.nodup_cons] at hn
    obtain ⟨hnm, hrest⟩ := hn
    rw [List.flatMap_cons, List.nodup_append]
    refine ⟨?_, ih hrest, ?_⟩
    · simp [Ne.symm hcn]
    · intro x hx hx2
      have hfst : x.1 = n := by
        rcases List.mem_cons.mp hx with h1 | h1
        · rw [h1]
        · rcases List.mem_cons.mp h1 with h2 | h2
          · rw [h2]
          · exact absurd h2 (List.not_mem_nil x)
      exact hnm (hfst ▸ mem_pairs_fst hx2)

theorem routeStep_none (env : CmdEnv) (e : Event) (ulevel : Int) (st : RouteState)
    (mk : String × String) (h : cmdAt st.mods mk = none) :
    routeStep env e ulevel st mk = st := by
  cases hmd : dlookup st.mods mk.1 with
  | none => simp [routeStep, hmd]
  | some md =>
    cases hci : dlookup md.commands mk.2 with
    | none => simp [routeStep, hmd, hci]
    | some ci =>
      rw [cmdAt, hmd] at h
      simp only [Option.some_bind] at h
      rw [hci] at h
      exact absurd h (by simp)

theorem routeStep_noPrivs (env : CmdEnv) (e : Event) (ulevel : Int) (st : RouteState)
    (mk : String × String) {md : ModuleData} {ci : Command}
    (hmd : dlookup st.mods mk.1 = some md) (hci : dlookup md.commands mk.2 = some ci)
    (hlev : levOk ulevel ci.call_level = false) :
    routeStep env e ulevel st mk = st := by
  simp [routeStep, hmd, hci, hlev]

theorem routeStep_modeBlocked (env : CmdEnv) (e : Event) (ulevel : Int) (st : RouteState)
    (mk : String × String) {md : ModuleData} {ci : Command}
    (hmd : dlookup st.mods mk.1 = some md) (hci : dlookup md.commands mk.2 = some ci)
    (hlev : levOk ulevel ci.call_level = true)
    (hmode : (ci.channel_mode_restriction.isSome &&
        (e.ftIsUser ||
          (e.ftIsChannel &&
            !(e.ftHasPrivs e.sourceNick (ci.channel_mode_restriction.getD ""))))) = true) :
    routeStep env e ulevel st mk = st := by
  simp [routeStep, hmd, hci, hlev, hmode]

theorem routeStep_update (env : CmdEnv) (e : Event) (ulevel : Int) (st : RouteState)
    (mk : String × String) {md : ModuleData} {ci : Command}
    (hmd : dlookup st.mods mk.1 = some md) (hci : dlookup md.commands mk.2 = some ci)
    (hlev : levOk ulevel ci.call_level = true)
    (hmode : (ci.channel_mode_restriction.isSome &&
        (e.ftIsUser ||
          (e.ftIsChannel &&
            !(e.ftHasPrivs e.sourceNick (ci.channel_mode_restriction.getD ""))))) = false) :
    routeStep env e ulevel st mk =
      (let ccw := ci.channel_whitelist.map (env.istring e.server)
       let ci' : Command := { ci with user_whitelist :=
         ci.user_whitelist ++ ccw.flatMap (env.channelUsers e.server) }
       let mods' := dset st.mods mk.1 { md with commands := dset md.commands mk.2 ci' }
       if (decide (e.targetName ∈ ccw)
           || decide (e.sourceNick ∈
                ci.user_whitelist ++ ccw.flatMap (env.channelUsers e.server))
           || ccw.isEmpty) then
         if ci.call ∈ st.called then { st with mods := mods' }
         else { mods := mods', called := st.called ++ [ci.call],
                disp := st.disp ++ [(ci.call, ci')] }
       else { st with mods := mods' }) := by
  simp only [routeStep, hmd, hci, hlev, hmode, if_true, Bool.false_eq_true, if_false]

theorem cmdAt_dset_frame (mods : List (String × ModuleData)) (mk : String × String)
    (md : ModuleData) (ci' : Command) (mk' : String × String)
    (hne : mk' ≠ mk) (hmd : dlookup mods mk.1 = some md) :
    cmdAt (dset mods mk.1 { md with commands := dset md.commands mk.2 ci' }) mk'
      = cmdAt mods mk' := by
  by_cases h1 : mk'.1 = mk.1
  · have h2 : mk'.2 ≠ mk.2 := by
      intro hc
      exact hne (Prod.ext h1 hc)
    rw [cmdAt, cmdAt, h1, dlookup_dset_self _ (mem_keys_of_lookup hmd), hmd]
    simp only [Option.some_bind]
    exact dlookup_dset_ne _ _ _ h2
  · rw [cmdAt, cmdAt, dlookup_dset_ne _ _ _ h1]

theorem routeStep_called_eq (env : CmdEnv) (e : Event) (ulevel : Int) (st : RouteState)
    (mk : String × String) (hcd : st.called = st.disp.map Prod.fst) :
    (routeStep env e ulevel st mk).called
        = (routeStep env e ulevel st mk).disp.map Prod.fst ∧
    (routeStep env e ulevel st mk).disp.map Prod.fst
        = st.disp.map Prod.fst
          ++ (match candidateFires env e ulevel st.mods mk with
              | some c => if c ∈ st.called then [] else [c]
              | none => []) ∧
    (∀ mk' : String × String, mk' ≠ mk →
      cmdAt (routeStep env e ulevel st mk).mods mk' = cmdAt st.mods mk') := by
  cases hmd : dlookup st.mods mk.1 with
  | none =>
    have hAt : cmdAt st.mods mk = none := by rw [cmdAt, hmd]; rfl
    have hc : candidateFires env e ulevel st.mods mk = none := by
      rw [candidateFires, hAt]
    rw [routeStep_none env e ulevel st mk hAt, hc]
    exact ⟨hcd, by simp, fun _ _ => rfl⟩
  | some md =>
    cases hci : dlookup md.commands mk.2 with
    | none =>
      have hAt : cmdAt st.mods mk = none := by
        rw [cmdAt, hmd]
        simp only [Option.some_bind]
        exact hci
      have hc : candidateFires env e ulevel st.mods mk = none := by
        rw [candidateFires, hAt]
      rw [routeStep_none env e ulevel st mk hAt, hc]
      exact ⟨hcd, by simp, fun _ _ => rfl⟩
    | some ci =>
      have hAt : cmdAt st.mods mk = some ci := by
        rw [cmdAt, hmd]
        simp only [Option.some_bind]
        exact hci
      have hcand : candidateFires env e ulevel st.mods mk = gateFire env e ulevel ci := by
        rw [candidateFires, hAt]
      cases hlev : levOk ulevel ci.call_level with
      | false =>
        have hg : gateFire env e ulevel ci = none := by
          simp [gateFire, hlev]
        rw [routeStep_noPrivs env e ulevel st mk hmd hci hlev, hcand, hg]
        exact ⟨hcd, by simp, fun _ _ => rfl⟩
      | true =>
        cases hmode : (ci.channel_mode_restriction.isSome &&
            (e.ftIsUser ||
              (e.ftIsChannel &&
                !(e.ftHasPrivs e.sourceNick (ci.channel_mode_restriction.getD ""))))) with
        | true =>
          have hg : gateFire env e ulevel ci = none := by
            simp [gateFire, hlev, hmode]
          rw [routeStep_modeBlocked env e ulevel st mk hmd hci hlev hmode, hcand, hg]
          exact ⟨hcd, by simp, fun _ _ => rfl⟩
        | false =>
          have hg : gateFire env e ulevel ci =
              (if (decide (e.targetName ∈ ci.channel_whitelist.map (env.istring e.server))
                  || decide (e.sourceNick ∈
                       ci.user_whitelist ++ (ci.channel_whitelist.map
                         (env.istring e.server)).flatMap (env.channelUsers e.server))
                  || (ci.channel_whitelist.map (env.istring e.server)).isEmpty) then
                some ci.call else none) := by
            simp only [gateFire, hlev, if_true, hmode, Bool.false_eq_true, if_false]
          rw [routeStep_update env e ulevel st mk hmd hci hlev hmode, hcand, hg]
          simp only []
          by_cases hwl : (decide (e.targetName ∈ ci.channel_whitelist.map (env.istring e.server))
              || decide (e.sourceNick ∈
                   ci.user_whitelist ++ (ci.channel_whitelist.map
                     (env.istring e.server)).flatMap (env.channelUsers e.server))
              || (ci.channel_whitelist.map (env.istring e.server)).isEmpty) = true
          · rw [if_pos hwl, if_pos hwl]
            by_cases hmem : ci.call ∈ st.called
            · rw [if_pos hmem]
              refine ⟨hcd, by simp [hmem], ?_⟩
              intro mk' hne
              exact cmdAt_dset_frame st.mods mk md _ mk' hne hmd
            · rw [if_neg hmem]
              refine ⟨?_, ?_, ?_⟩
              · simp [hcd]
              · simp [hmem]
              · intro mk' hne
                exact cmdAt_dset_frame st.mods mk md _ mk' hne hmd
          · rw [if_neg hwl, if_neg hwl]
            refine ⟨hcd, by simp, ?_⟩
            intro mk' hne
            exact cmdAt_dset_frame st.mods mk md _ mk' hne hmd

theorem route_fold (env : CmdEnv) (e : Event) (ulevel : Int)
    (mods0 : List (String × ModuleData)) :
    ∀ (pairs : List (String × String)) (st : RouteState),
      st.called = st.disp.map Prod.fst →
      pairs.Nodup →
      (∀ mk ∈ pairs, cmdAt st.mods mk = cmdAt mods0 mk) →
      (pairs.foldl (routeStep env e ulevel) st).disp.map Prod.fst
        = st.disp.map Prod.fst
          ++ dedupH st.called (pairs.filterMap (candidateFires env e ulevel mods0)) := by
  intro pairs
  induction pairs with
  | nil =>
    intro st hcd _ _
    simp [dedupH]
  | cons mk rest ih =>
    intro st hcd hnd hagree
    obtain ⟨hA, hB, hF⟩ := routeStep_called_eq env e ulevel st mk hcd
    have hcand : candidateFires env e ulevel st.mods mk
        = candidateFires env e ulevel mods0 mk := by
      rw [candidateFires, candidateFires, hagree mk (List.mem_cons_self mk rest)]
    rw [hcand] at hB
    rw [List.nodup_cons] at hnd
    obtain ⟨hmk_notmem, hrest_nodup⟩ := hnd
    have hagree' : ∀ mk' ∈ rest,
        cmdAt (routeStep env e ulevel st mk).mods mk' = cmdAt mods0 mk' := by
      intro mk' hm
      rw [hF mk' (fun hc => hmk_notmem (hc ▸ hm)),
        hagree mk' (List.mem_cons_of_mem _ hm)]
    have hrec := ih (routeStep env e ulevel st mk) hA hrest_nodup hagree'
    rw [List.foldl_cons, hrec, List.filterMap_cons]
    have hcalled : (routeStep env e ulevel st mk).called
        = st.called
          ++ (match candidateFires env e ulevel mods0 mk with
              | some c => if c ∈ st.called then [] else [c]
              | none => []) := by
      rw [hA, hB, hcd]
    cases hc : candidateFires env e ulevel mods0 mk with
    | none =>
      simp only [hc, List.append_nil] at hB hcalled
      rw [hB, hcalled]
    | some c =>
      by_cases hmem : c ∈ st.called
      · simp only [hc, if_pos hmem, List.append_nil] at hB hcalled
        rw [hB, hcalled, dedupH_cons, if_pos hmem]
      · simp only [hc, if_neg hmem] at hB hcalled
        rw [hB, hcalled, dedupH_cons, if_neg hmem]
        simp [List.append_assoc]

theorem routeStep_disp_levOk (env : CmdEnv) (e : Event) (ulevel : Int) (st : RouteState)
    (mk : String × String)
    (h : ∀ x ∈ st.disp, levOk ulevel x.2.call_level = true) :
    ∀ x ∈ (routeStep env e ulevel st mk).disp, levOk ulevel x.2.call_level = true := by
  cases hmd : dlookup st.mods mk.1 with
  | none =>
    rw [routeStep_none env e ulevel st mk (by rw [cmdAt, hmd]; rfl)]
    exact h
  | some md =>
    cases hci : dlookup md.commands mk.2 with
    | none =>
      rw [routeStep_none env e ulevel st mk
        (by rw [cmdAt, hmd]; simp only [Option.some_bind]; exact hci)]
      exact h
    | some ci =>
      cases hlev : levOk ulevel ci.call_level with
      | false =>
        rw [routeStep_noPrivs env e ulevel st mk hmd hci hlev]
        exact h
      | true =>
        cases hmode : (ci.channel_mode_restriction.isSome &&
            (e.ftIsUser ||
              (e.ftIsChannel &&
                !(e.ftHasPrivs e.sourceNick (ci.channel_mode_restriction.getD ""))))) with
        | true =>
          rw [routeStep_modeBlocked env e ulevel st mk hmd hci hlev hmode]
          exact h
        | false =>
          rw [routeStep_update env e ulevel st mk hmd hci hlev hmode]
          simp only []
          split
          · split
            · exact h
            · intro x hx
              rcases List.mem_append.mp hx with h1 | h2
              · exact h x h1
              · rw [List.mem_singleton.mp h2]
                exact hlev
          · exact h

theorem handle_command_levOk (env : CmdEnv) (e : Event)
    (mods : List (String × ModuleData)) :
    ∀ x ∈ (handle_command env e mods).2,
      levOk (userLevelOf env e) x.2.call_level = true := by
  cases hp : parseCmd env.pfx e.message with
  | none => simp [handle_command, hp]
  | some cn =>
    simp only [handle_command, hp]
    exact foldl_preserves
      (fun st : RouteState => ∀ x ∈ st.disp, levOk (userLevelOf env e) x.2.call_level = true)
      (routeStep env e (userLevelOf env e))
      (fun st mk hst => routeStep_disp_levOk env e (userLevelOf env e) st mk hst)
      _ _ (by simp)

theorem handle_command_disp (env : CmdEnv) (e : Event)
    (mods : List (String × ModuleData)) (cn args : String)
    (hp : parseCmd env.pfx e.message = some (cn, args))
    (hw : cn ≠ "*") (hnd : (keysOf mods).Nodup) :
    (handle_command env e mods).2.map Prod.fst
      = dedupH [] (firedCalls env e mods cn) := by
  have hpairs : ((sortStr (keysOf mods)).flatMap
      (fun mn => [(mn, "*"), (mn, cn)])).Nodup :=
    pairs_nodup _ cn (((sortStr_perm (keysOf mods)).nodup_iff).mpr hnd) hw
  simp only [handle_command, hp]
  simpa using route_fold env e (userLevelOf env e) mods
    ((sortStr (keysOf mods)).flatMap (fun mn => [(mn, "*"), (mn, cn)]))
    { mods := mods, called := [], disp := [] } rfl hpairs (fun _ _ => rfl)

theorem candidate_single (env : CmdEnv) (e : Event) (ulevel : Int) (mn : String)
    (md : ModuleData) (k : String) {ci : Command}
    (h : dlookup md.commands k = some ci) :
    candidateFires env e ulevel [(mn, md)] (mn, k) = gateFire env e ulevel ci := by
  rw [candidateFires, cmdAt]
  simp [dlookup_cons, h]

theorem gateFire_pass (env : CmdEnv) (e : Event) (ulevel : Int) (ci : Command)
    (hlev : levOk ulevel ci.call_level = true)
    (hm : ci.channel_mode_restriction = none) (hw : ci.channel_whitelist = []) :
    gateFire env e ulevel ci = some ci.call := by
  simp [gateFire, hlev, hm, hw]

/--
C6 counterexample: a module carrying both a wildcard `*` command
(handler 1) and a literal `foo` command (handler 2).  On `!foo bar` the
router dispatches **both**, wildcard first (`['*', command_name]` in
`handle_command`), where the claimed literal-first / wildcard-only-as-
fallback routing (`routerClaimC6`) would dispatch the literal command
alone.
-/
theorem C6_counterexample :
    (handle_command cCmdEnv cEvent [("A", cModA)]).2.map Prod.fst = [1, 2] ∧
    routerClaimC6 cCmdEnv cEvent [("A", cModA)] = [2] :=
  ⟨by decide, by decide⟩

/--
C6 (amended): the router does visit modules in lexicographic name order
(`sorted(self.modules)`: part (i)), resolves unauthenticated callers to
the lowest privilege level (part (ii)), and dispatches only commands whose
`call_level` the caller's resolved level meets (part (iii)); but within a
module the search order is `['*', command_name]` — the wildcard entry is
checked **first** and is not a fallback: when both a wildcard and a
literal entry match, both are dispatched, wildcard first (part (iv)).
-/
theorem C6_router_order :
    (∀ l : List String,
      (sortStr l).Pairwise (fun a b => strLe a b = true) ∧ (sortStr l).Perm l) ∧
    (∀ (env : CmdEnv) (e : Event), env.account e.server e.source = none →
      userLevelOf env e = USER_LEVEL_NOPRIVS) ∧
    (∀ (env : CmdEnv) (e : Event) (mods : List (String × ModuleData)),
      ∀ x ∈ (handle_command env e mods).2,
        levOk (userLevelOf env e) x.2.call_level = true) ∧
    (∀ (env : CmdEnv) (e : Event) (mn cn args : String) (md : ModuleData)
        (c1 c2 : Command),
      parseCmd env.pfx e.message = some (cn, args) → cn ≠ "*" →
      dlookup md.commands "*" = some c1 → dlookup md.commands cn = some c2 →
      levOk (userLevelOf env e) c1.call_level = true →
      levOk (userLevelOf env e) c2.call_level = true →
      c1.channel_mode_restriction = none → c2.channel_mode_restriction = none →
      c1.channel_whitelist = [] → c2.channel_whitelist = [] →
      c1.call ≠ c2.call →
      (handle_command env e [(mn, md)]).2.map Prod.fst = [c1.call, c2.call]) := by
  refine ⟨fun l => ⟨sortStr_sorted l, sortStr_perm l⟩,
    ?_, handle_command_levOk, ?_⟩
  · intro env e h
    rw [userLevelOf, h]
  · intro env e mn cn args md c1 c2 hp hcn h1 h2 hl1 hl2 hm1 hm2 hw1 hw2 hne
    rw [handle_command_disp env e [(mn, md)] cn args hp hcn (by simp)]
    have hfc : firedCalls env e [(mn, md)] cn = [c1.call, c2.call] := by
      rw [firedCalls]
      have e1 : sortStr (keysOf [(mn, md)]) = [mn] := rfl
      rw [e1]
      simp only [List.flatMap_cons, List.flatMap_nil, List.append_nil,
        List.cons_append, List.nil_append]
      simp [List.filterMap_cons,
        candidate_single env e (userLevelOf env e) mn md "*" h1,
        candidate_single env e (userLevelOf env e) mn md cn h2,
        gateFire_pass env e (userLevelOf env e) c1 hl1 hm1 hw1,
        gateFire_pass env e (userLevelOf env e) c2 hl2 hm2 hw2]
    rw [hfc, dedupH_cons]
    rw [if_neg (List.not_mem_nil c1.call), dedupH_cons,
      if_neg (by simp [Ne.symm hne]), dedupH_nil]

/-- Witness for C6 at concrete inputs: on module `B` carrying both a
wildcard (handler 1) and literal `foo` (handler 2) both fire, wildcard
first; and an unauthenticated caller resolves to the lowest level. -/
theorem C6_witness :
    ((handle_command cCmdEnv cEvent [("B", cModA)]).2.map Prod.fst
      = [cCmdA.call, cCmdB.call]) ∧
    (userLevelOf { cCmdEnv with account := fun _ _ => none } cEvent
      = USER_LEVEL_NOPRIVS) :=
  ⟨C6_router_order.2.2.2 cCmdEnv cEvent "B" "foo" "bar" cModA cCmdA cCmdB
      (by decide) (by decide) (by decide) (by decide) (by decide) (by decide)
      rfl rfl rfl rfl (by decide),
   C6_router_order.2.1 { cCmdEnv with account := fun _ _ => none } cEvent rfl⟩

/--
C7: in one routing pass of a chat-message event the router deduplicates by
underlying call identity — the dispatched handler list is exactly the
first-occurrence deduplication (`called`-list check on `command_info.call`)
of the gate-passing candidates in visit order, and therefore never repeats
a handler, no matter how many descriptors (aliases, entries in different
modules, a wildcard plus a literal) share that handler.
-/
theorem C7_dedup_by_call (env : CmdEnv) (e : Event)
    (mods : List (String × ModuleData)) (cn args : String)
    (hp : parseCmd env.pfx e.message = some (cn, args)) (hw : cn ≠ "*")
    (hnd : (keysOf mods).Nodup) :
    (handle_command env e mods).2.map Prod.fst
      = dedupH [] (firedCalls env e mods cn) ∧
    ((handle_command env e mods).2.map Prod.fst).Nodup := by
  have h1 := handle_command_disp env e mods cn args hp hw hnd
  refine ⟨h1, ?_⟩
  rw [h1]
  exact (dedupH_spec (firedCalls env e mods cn) []).1

/-- Witness for C7: two modules `A` and `B` both carry a `foo` descriptor
with the same underlying handler 7; the pass dispatches it exactly once. -/
theorem C7_witness :
    ((handle_command cCmdEnv cEvent [("A", cModShared), ("B", cModShared)]).2.map
        Prod.fst
      = dedupH [] (firedCalls cCmdEnv cEvent
          [("A", cModShared), ("B", cModShared)] "foo")) ∧
    (((handle_command cCmdEnv cEvent
        [("A", cModShared), ("B", cModShared)]).2.map Prod.fst).Nodup) :=
  C7_dedup_by_call cCmdEnv cEvent [("A", cModShared), ("B", cModShared)]
    "foo" "bar" (by decide) (by decide) (by decide)

/--
C8: for a command declaring a `channel_mode_restriction`: (i) a
private-message invocation (the target is a user) is never dispatched, at
any privilege level; (ii) a channel invocation by a caller who does not
hold the restriction's mode there is never dispatched, at any privilege
level; (iii) a channel invocation by a caller who holds the mode is
dispatched, subject to the other gates (privilege met, no channel
whitelist).
-/
theorem C8_mode_restriction (env : CmdEnv) (e : Event) (mn cn args letter : String)
    (md : ModuleData) (ci : Command)
    (hp : parseCmd env.pfx e.message = some (cn, args))
    (hcmds : md.commands = [(cn, ci)]) (hcn : cn ≠ "*")
    (hmode : ci.channel_mode_restriction = some letter) :
    (e.ftIsUser = true → (handle_command env e [(mn, md)]).2 = []) ∧
    (e.ftIsUser = false → e.ftIsChannel = true →
      e.ftHasPrivs e.sourceNick letter = false →
      (handle_command env e [(mn, md)]).2 = []) ∧
    (e.ftIsUser = false → e.ftIsChannel = true →
      e.ftHasPrivs e.sourceNick letter = true →
      levOk (userLevelOf env e) ci.call_level = true →
      ci.channel_whitelist = [] →
      (handle_command env e [(mn, md)]).2.map Prod.fst = [ci.call]) := by
  have hdisp := handle_command_disp env e [(mn, md)] cn args hp hcn (by simp)
  have hstar : candidateFires env e (userLevelOf env e) [(mn, md)] (mn, "*") = none := by
    rw [candidateFires, cmdAt]
    simp [dlookup_cons, dlookup_nil, hcmds, hcn]
  have hlit : candidateFires env e (userLevelOf env e) [(mn, md)] (mn, cn)
      = gateFire env e (userLevelOf env e) ci :=
    candidate_single env e (userLevelOf env e) mn md cn
      (by simp [hcmds, dlookup_cons])
  have hfc : firedCalls env e [(mn, md)] cn
      = (gateFire env e (userLevelOf env e) ci).toList := by
    rw [firedCalls]
    have e1 : sortStr (keysOf [(mn, md)]) = [mn] := rfl
    rw [e1]
    simp only [List.flatMap_cons, List.flatMap_nil, List.append_nil,
      List.cons_append, List.nil_append]
    rw [List.filterMap_cons, hstar, List.filterMap_cons, hlit, List.filterMap_nil]
    cases gateFire env e (userLevelOf env e) ci <;> rfl
  refine ⟨?_, ?_, ?_⟩
  · intro hu
    have hg : gateFire env e (userLevelOf env e) ci = none := by
      cases hlev : levOk (userLevelOf env e) ci.call_level with
      | false => simp [gateFire, hlev]
      | true => simp [gateFire, hlev, hmode, hu]
    have hmap : (handle_command env e [(mn, md)]).2.map Prod.fst = [] := by
      rw [hdisp, hfc, hg]
      rfl
    exact List.map_eq_nil_iff.mp hmap
  · intro hu hc hpriv
    have hg : gateFire env e (userLevelOf env e) ci = none := by
      cases hlev : levOk (userLevelOf env e) ci.call_level with
      | false => simp [gateFire, hlev]
      | true => simp [gateFire, hlev, hmode, hu, hc, hpriv]
    have hmap : (handle_command env e [(mn, md)]).2.map Prod.fst = [] := by
      rw [hdisp, hfc, hg]
      rfl
    exact List.map_eq_nil_iff.mp hmap
  · intro hu hc hpriv hlev hwl
    have hg : gateFire env e (userLevelOf env e) ci = some ci.call := by
      simp [gateFire, hlev, hmode, hu, hc, hpriv, hwl]
    rw [hdisp, hfc, hg]
    rfl

/-- Witness for C8: the operator-restricted `foo` of `cModOp` is rejected
when invoked by private message, rejected in a channel without the mode,
and dispatched in a channel where the caller holds it. -/
theorem C8_witness :
    ((handle_command cCmdEnv cEventUser [("A", cModOp)]).2 = []) ∧
    ((handle_command cCmdEnv cEventNoPriv [("A", cModOp)]).2 = []) ∧
    ((handle_command cCmdEnv cEvent [("A", cModOp)]).2.map Prod.fst
      = [cCmdOp.call]) :=
  ⟨(C8_mode_restriction cCmdEnv cEventUser "A" "foo" "bar" "o" cModOp cCmdOp
      (by decide) rfl (by decide) rfl).1 rfl,
   (C8_mode_restriction cCmdEnv cEventNoPriv "A" "foo" "bar" "o" cModOp cCmdOp
      (by decide) rfl (by decide) rfl).2.1 rfl rfl rfl,
   (C8_mode_restriction cCmdEnv cEvent "A" "foo" "bar" "o" cModOp cCmdOp
      (by decide) rfl (by decide) rfl).2.2 rfl rfl rfl (by decide) rfl⟩

/--
C10: routing a matching chat-message event writes through to the stored
command table: for a command whose privilege and mode gates pass, the
descriptor stored under its name afterwards carries a `user_whitelist`
equal to the old one with the member list of every (case-folded)
whitelisted channel appended — whether or not the command was actually
dispatched.  Routing is not read-only on the command tables.
-/
theorem C10_whitelist_mutation (env : CmdEnv) (e : Event) (mn cn args : String)
    (md : ModuleData) (ci : Command)
    (hp : parseCmd env.pfx e.message = some (cn, args))
    (hcmds : md.commands = [(cn, ci)]) (hcn : cn ≠ "*")
    (hlev : levOk (userLevelOf env e) ci.call_level = true)
    (hmode : ci.channel_mode_restriction = none) :
    cmdAt (handle_command env e [(mn, md)]).1 (mn, cn)
      = some { ci with user_whitelist := ci.user_whitelist
          ++ (ci.channel_whitelist.map
                (env.istring e.server)).flatMap (env.channelUsers e.server) } := by
  have hmd : dlookup [(mn, md)] mn = some md := by simp [dlookup_cons]
  have hci : dlookup md.commands cn = some ci := by simp [hcmds, dlookup_cons]
  have hstar : cmdAt [(mn, md)] (mn, "*") = none := by
    rw [cmdAt]
    simp [dlookup_cons, dlookup_nil, hcmds, hcn]
  have hmodeF : (ci.channel_mode_restriction.isSome &&
      (e.ftIsUser ||
        (e.ftIsChannel &&
          !(e.ftHasPrivs e.sourceNick (ci.channel_mode_restriction.getD ""))))) = false := by
    simp [hmode]
  have hone : handle_command env e [(mn, md)]
      = (let st := routeStep env e (userLevelOf env e)
           (routeStep env e (userLevelOf env e)
             { mods := [(mn, md)], called := [], disp := [] } (mn, "*")) (mn, cn)
         (st.mods, st.disp)) := by
    simp only [handle_command, hp]
    rfl
  rw [hone]
  rw [routeStep_none env e (userLevelOf env e) _ (mn, "*") hstar]
  rw [routeStep_update env e (userLevelOf env e) _ (mn, cn) hmd hci hlev hmodeF]
  simp only []
  have hkey : mn ∈ keysOf [(mn, md)] := mem_keys_of_lookup hmd
  have hkey2 : cn ∈ keysOf md.commands := mem_keys_of_lookup hci
  split
  · split
    · rw [cmdAt]
      simp only [dlookup_dset_self _ hkey, Option.some_bind]
      exact dlookup_dset_self _ hkey2
    · rw [cmdAt]
      simp only [dlookup_dset_self _ hkey, Option.some_bind]
      exact dlookup_dset_self _ hkey2
  · rw [cmdAt]
    simp only [dlookup_dset_self _ hkey, Option.some_bind]
    exact dlookup_dset_self _ hkey2

/-- Witness for C10: routing `!foo bar` against the channel-whitelisted
`foo` (whitelist `#wl`, members `bob`, `carol`) leaves the stored
descriptor with the two members appended to its user whitelist, although
the command was not dispatched (caller `alice` is neither whitelisted nor
in `#wl`). -/
theorem C10_witness :
    cmdAt (handle_command cCmdEnv cEvent [("A", cModWl)]).1 ("A", "foo")
      = some { cCmdWl with user_whitelist := cCmdWl.user_whitelist
          ++ (cCmdWl.channel_whitelist.map
                (cCmdEnv.istring cEvent.server)).flatMap (cCmdEnv.channelUsers cEvent.server) } :=
  C10_whitelist_mutation cCmdEnv cEvent "A" "foo" "bar" cModWl cCmdWl
    (by decide) rfl (by decide) (by decide) rfl
